import Mathlib

/-!
Verification development for the job-agent record store.

The definitions below are a shallow embedding of the record identity,
deduplication and atomic-update subsystem of the repository:

* `src/tools/scraping_tools.py` — `ScrapeLinkedInTool._normalize_link`,
  `ScrapeLinkedInTool._job_id`, `ScrapeLinkedInTool._load_existing_ids`
  and the dedup/append portion of `ScrapeLinkedInTool._run`;
* `src/tools/workflow_tools.py` — `UPDATABLE_FIELDS`, `_bool_to_yesno`,
  `_write_all_atomic`, `UpdateJobsCsvTool._resolve_csv_path`,
  `UpdateJobsCsvTool._apply_action`, `UpdateJobsCsvTool._run`.

Python strings are modelled by `String`, Python byte strings by
`List Nat` (each element < 256), machine words of the hash by `Nat`
taken modulo `2 ^ 32`, Python scalar values by `PyVal`, and Python
dicts (insertion ordered) by association lists `Dict`.
-/

namespace JobAgent

/-! ## Python string primitives (ASCII model) -/

/-- Model of Python `str.lower` on a character (exact on ASCII; the
repository's fields are ASCII).  -/
def lowerChar (c : Char) : Char :=
  if 65 ≤ c.toNat ∧ c.toNat ≤ 90 then Char.ofNat (c.toNat + 32) else c

/-- Model of Python `str.lower`. -/
def pyLower (s : String) : String := String.mk (s.data.map lowerChar)

/-- Python whitespace recognised by `str.strip()`. -/
def isPySpace (c : Char) : Bool :=
  c = ' ' ∨ c = '\t' ∨ c = '\n' ∨ c = '\x0d' ∨ c = '\x0b' ∨ c = '\x0c'

/-- Drop the longest suffix of `l` all of whose characters satisfy `p`. -/
def dropTrailing (p : Char → Bool) (l : List Char) : List Char :=
  (l.reverse.dropWhile p).reverse

/-- Model of Python `str.strip()` (no argument: strips whitespace). -/
def pyStrip (s : String) : String :=
  String.mk (dropTrailing isPySpace (s.data.dropWhile isPySpace))

/-- Model of Python `str.rstrip("/")`. -/
def rstripSlash (s : String) : String :=
  String.mk (dropTrailing (· = '/') s.data)

/-! ## UTF-8 encoding (model of Python `str.encode("utf-8")`) -/

/-- UTF-8 encoding of one code point, as bytes. -/
def utf8Char (c : Char) : List Nat :=
  let n := c.toNat
  if n < 128 then [n]
  else if n < 2048 then [192 + n / 64, 128 + n % 64]
  else if n < 65536 then [224 + n / 4096, 128 + n / 64 % 64, 128 + n % 64]
  else [240 + n / 262144, 128 + n / 4096 % 64, 128 + n / 64 % 64, 128 + n % 64]

/-- Model of `s.encode("utf-8")`: the byte sequence of a string. -/
def utf8 (s : String) : List Nat := (s.data.map utf8Char).flatten

/-! ## SHA-1 (model of `hashlib.sha1(...).hexdigest()`)

32-bit machine words are `Nat` reduced modulo `2 ^ 32`. -/

/-- Truncate to a 32-bit word. -/
def w32 (n : Nat) : Nat := n % 4294967296

/-- Rotate a 32-bit word left by `b` bits. -/
def rotl (b n : Nat) : Nat := (n * 2 ^ b + n / 2 ^ (32 - b)) % 4294967296

/-- SHA-1 round constants. -/
def sha1K (t : Nat) : Nat :=
  if t < 20 then 1518500249
  else if t < 40 then 1859775393
  else if t < 60 then 2400959708
  else 3395469782

/-- SHA-1 round functions (choose / parity / majority / parity). -/
def sha1F (t b c d : Nat) : Nat :=
  if t < 20 then Nat.lor (Nat.land b c) (Nat.land (Nat.xor b 4294967295) d)
  else if t < 40 then Nat.xor (Nat.xor b c) d
  else if t < 60 then Nat.lor (Nat.lor (Nat.land b c) (Nat.land b d)) (Nat.land c d)
  else Nat.xor (Nat.xor b c) d

/-- Merkle–Damgård padding: append `0x80`, zeros, and the 64-bit
big-endian bit length, reaching a multiple of 64 bytes. -/
def sha1Pad (msg : List Nat) : List Nat :=
  let L := msg.length
  let z := (56 + 64 - (L + 1) % 64) % 64
  msg ++ [128] ++ List.replicate z 0 ++
    (List.range 8).map (fun i => 8 * L / 2 ^ (8 * (7 - i)) % 256)

/-- Big-endian assembly of a word from bytes. -/
def bytesToWord (l : List Nat) : Nat := l.foldl (fun acc b => acc * 256 + b) 0

/-- The sixteen 32-bit words of one 64-byte block. -/
def chunkWords (block : List Nat) : List Nat :=
  (List.range 16).map (fun i => bytesToWord ((block.drop (4 * i)).take 4))

/-- Compression of one 64-byte block into the running state (the 80-word
message schedule is built by the first fold). -/
def sha1Block (h : Nat × Nat × Nat × Nat × Nat) (block : List Nat) :
    Nat × Nat × Nat × Nat × Nat :=
  let (h0, h1, h2, h3, h4) := h
  let sched := (List.range 64).foldl
    (fun ws _ =>
      let n := ws.length
      ws ++ [rotl 1 (Nat.xor (Nat.xor (ws.getD (n - 3) 0) (ws.getD (n - 8) 0))
        (Nat.xor (ws.getD (n - 14) 0) (ws.getD (n - 16) 0)))])
    (chunkWords block)
  let final := sched.enum.foldl
    (fun st tw =>
      let (a, b, c, d, e) := st
      let temp := w32 (rotl 5 a + sha1F tw.1 b c d + e + sha1K tw.1 + tw.2)
      (temp, a, rotl 30 b, c, d)) (h0, h1, h2, h3, h4)
  let (a, b, c, d, e) := final
  (w32 (h0 + a), w32 (h1 + b), w32 (h2 + c), w32 (h3 + d), w32 (h4 + e))

/-- The five 32-bit state words of the SHA-1 digest of a byte sequence. -/
def sha1Words (msg : List Nat) : Nat × Nat × Nat × Nat × Nat :=
  let padded := sha1Pad msg
  let blocks := (List.range (padded.length / 64)).map
    (fun i => (padded.drop (64 * i)).take 64)
  blocks.foldl sha1Block (1732584193, 4023233417, 2562383102, 271733878, 3285377520)

/-- One lowercase hexadecimal digit. -/
def hexDigitChar (n : Nat) : Char := "0123456789abcdef".data.getD n '0'

/-- Eight lowercase hex digits of one 32-bit word, most significant first. -/
def wordHex (n : Nat) : List Char :=
  (List.range 8).map (fun i => hexDigitChar (n / 2 ^ (4 * (7 - i)) % 16))

/-- Model of `hashlib.sha1(msg).hexdigest()`: the 40-character lowercase
hexadecimal digest. -/
def sha1Hex (msg : List Nat) : String :=
  let (a, b, c, d, e) := sha1Words msg
  String.mk (wordHex a ++ wordHex b ++ wordHex c ++ wordHex d ++ wordHex e)

/-! ## `urllib.parse.urlparse` (model of the parts `_normalize_link` uses)

The model follows CPython's `urlsplit`/`urlparse` for URLs free of the
ASCII control characters the library strips: scheme detection at the
first `:`, netloc after `//` up to the first of `/ ? #`, fragment after
the first `#`, query after the first `?`, and the `;parameters` suffix
of the last path segment removed (`urlparse` separates `params` from
`path`; `_normalize_link` reads only `scheme`, `netloc`, `path`).
`urlparse` raises `ValueError` exactly when the netloc has an unmatched
IPv6 bracket; the model returns `Except.error` there. -/

/-- C0 control characters and space, lstripped by `urlsplit`. -/
def isC0OrSpace (c : Char) : Bool := c.toNat ≤ 32

/-- The bytes `urlsplit` removes everywhere (tab, CR, LF). -/
def isUnsafeUrlChar (c : Char) : Bool := c = '\t' ∨ c = '\x0d' ∨ c = '\n'

/-- `urlsplit`'s input cleaning: lstrip C0 controls and space, then
remove every tab, CR and LF. -/
def cleanUrl (l : List Char) : List Char :=
  (l.dropWhile isC0OrSpace).filter (fun c => ¬ isUnsafeUrlChar c)

/-- ASCII letter (Python `str.isalpha` restricted to ASCII, combined
with the `isascii` check of the scheme detection). -/
def isAsciiAlpha (c : Char) : Bool :=
  (65 ≤ c.toNat ∧ c.toNat ≤ 90) ∨ (97 ≤ c.toNat ∧ c.toNat ≤ 122)

/-- Characters permitted in a URL scheme after the leading letter. -/
def isSchemeChar (c : Char) : Bool :=
  isAsciiAlpha c ∨ (48 ≤ c.toNat ∧ c.toNat ≤ 57) ∨ c = '+' ∨ c = '-' ∨ c = '.'

/-- Split off the scheme at the first `:`, if the candidate scheme is
well formed; otherwise the whole input remains. -/
def splitScheme (l : List Char) : List Char × List Char :=
  let pre := l.takeWhile (· ≠ ':')
  let post := l.dropWhile (· ≠ ':')
  match post, pre with
  | _ :: rest, c :: cs =>
      if isAsciiAlpha c ∧ cs.all isSchemeChar then ((c :: cs).map lowerChar, rest)
      else ([], l)
  | _, _ => ([], l)

/-- A character that terminates the netloc portion. -/
def isNetlocEnd (c : Char) : Bool := c = '/' ∨ c = '?' ∨ c = '#'

/-- After the scheme: if the rest starts with `//`, the netloc runs to
the first of `/ ? #`. -/
def splitNetloc (l : List Char) : List Char × List Char :=
  match l with
  | '/' :: '/' :: rest =>
      (rest.takeWhile (fun c => ¬ isNetlocEnd c),
       rest.dropWhile (fun c => ¬ isNetlocEnd c))
  | _ => ([], l)

/-- Remove everything from the first `#` on. -/
def stripFragment (l : List Char) : List Char := l.takeWhile (· ≠ '#')

/-- Remove everything from the first `?` on. -/
def stripQuery (l : List Char) : List Char := l.takeWhile (· ≠ '?')

/-- `urlparse`'s split of `;parameters` off the last path segment. -/
def stripParams (l : List Char) : List Char :=
  if '/' ∈ l then
    let segRev := l.reverse.takeWhile (· ≠ '/')
    let prefRev := l.reverse.dropWhile (· ≠ '/')
    prefRev.reverse ++ segRev.reverse.takeWhile (· ≠ ';')
  else
    l.takeWhile (· ≠ ';')

/-- The components of `urllib.parse.urlparse` used by `_normalize_link`. -/
structure UrlParts where
  scheme : String
  netloc : String
  path : String
deriving DecidableEq, Repr

/-- Model of `urllib.parse.urlparse` restricted to the components the
code reads; `Except.error` models the `ValueError` for an unmatched
IPv6 bracket in the netloc. -/
def pyUrlparse (url : String) : Except Unit UrlParts :=
  let (scheme, r1) := splitScheme (cleanUrl url.data)
  let (netloc, r2) := splitNetloc r1
  if ('[' ∈ netloc ∧ ¬ ']' ∈ netloc) ∨ (']' ∈ netloc ∧ ¬ '[' ∈ netloc) then
    .error ()
  else
    .ok ⟨String.mk scheme, String.mk netloc,
         String.mk (stripParams (stripQuery (stripFragment r2)))⟩

/-! ## `ScrapeLinkedInTool._normalize_link` and `._job_id`
(src/tools/scraping_tools.py lines 107-116) -/

/-- Embedding of `ScrapeLinkedInTool._normalize_link`: keep
`scheme://netloc + path` and strip trailing slashes; on a `urlparse`
exception fall back to the stripped raw string. -/
def normalize_link (link : String) : String :=
  match pyUrlparse link with
  | .ok u => rstripSlash (u.scheme ++ "://" ++ u.netloc ++ u.path)
  | .error _ => rstripSlash (pyStrip link)

/-- Embedding of `ScrapeLinkedInTool._job_id`: SHA-1 hex digest of the
`|`-joined lower-cased fields with the link normalized. -/
def job_id (title company location link : String) : String :=
  let base := pyLower title ++ "|" ++ pyLower company ++ "|" ++
    pyLower location ++ "|" ++ pyLower (normalize_link link)
  sha1Hex (utf8 base)

/-! ## Python scalar values and dicts -/

/-- The Python scalar values flowing through the store: strings (all CSV
cells), booleans and integers (possible JSON payload values). -/
inductive PyVal where
  | b : Bool → PyVal
  | s : String → PyVal
  | i : Int → PyVal
deriving DecidableEq, Repr

/-- Python truthiness of a scalar. -/
def pyTruthy : PyVal → Bool
  | .b x => x
  | .s v => v ≠ ""
  | .i n => n ≠ 0

/-- Python `==` on these scalars (`bool` unifies with `int`; strings
never equal non-strings). -/
def pyEq : PyVal → PyVal → Bool
  | .s a, .s b => a = b
  | .b a, .b b => a = b
  | .i a, .i b => a = b
  | .b a, .i n => (if a then (1 : Int) else 0) = n
  | .i n, .b a => n = (if a then (1 : Int) else 0)
  | _, _ => false

/-- Python `str()` of a scalar. -/
def pyStr : PyVal → String
  | .b true => "True"
  | .b false => "False"
  | .s v => v
  | .i n => toString n

/-- A Python dict: an insertion-ordered association list with unique
keys maintained by the operations below. -/
abbrev Dict := List (String × PyVal)

/-- `d.get(k)` / `d[k]` lookup. -/
def dget (d : Dict) (k : String) : Option PyVal :=
  match d.find? (fun p => p.1 = k) with
  | some p => some p.2
  | none => none

/-- `d[k] = v`: replace in place if the key exists, else append. -/
def dset (d : Dict) (k : String) (v : PyVal) : Dict :=
  if (d.find? (fun p => p.1 = k)).isSome then
    d.map (fun p => if p.1 = k then (k, v) else p)
  else d ++ [(k, v)]

/-- `d.setdefault(k, v)`. -/
def dsetdefault (d : Dict) (k : String) (v : PyVal) : Dict :=
  if (d.find? (fun p => p.1 = k)).isSome then d else d ++ [(k, v)]

/-- `d.update(u)`: fold `dset` over `u` in order. -/
def dictUpdate (d : Dict) (u : Dict) : Dict :=
  u.foldl (fun acc kv => dset acc kv.1 kv.2) d

/-! ## CSV schema (src/tools/scraping_tools.py lines 57-80,
src/tools/workflow_tools.py lines 16-29) -/

/-- `ScrapeLinkedInTool.CSV_FIELDS`. -/
def CSV_FIELDS : List String :=
  ["job_id", "date_scraped", "title", "company", "location", "link",
   "source", "raw_description", "keywords_matched",
   "resume_customized", "ats_score_checked", "ats_score",
   "approved_for_application", "application_submitted", "resume_id_used",
   "date_applied",
   "seniority_level", "employment_type", "salary_range", "skills_extracted"]

/-- The seven field names subtracted from the schema in
`workflow_tools.UPDATABLE_FIELDS`. -/
def REMOVED_FIELDS : List String :=
  ["job_id", "date_scraped", "title", "company", "location", "link", "source"]

/-- `UPDATABLE_FIELDS = set(CSV_FIELDS) - {...}`: membership is
`∈ CSV_FIELDS ∧ ∉ REMOVED_FIELDS`. -/
def UPDATABLE_FIELDS : List String :=
  CSV_FIELDS.filter (fun k => ¬ k ∈ REMOVED_FIELDS)

/-! ## Scraper append path (src/tools/scraping_tools.py lines 96-105,
163-165, 218-254)

The browser automation and HTML extraction are the out-of-scope
producer: a `Candidate` is one job card that passed the extraction and
title filters, carrying the four identity inputs and the
producer-computed seniority label. -/

/-- One candidate record handed to the append path by the producer. -/
structure Candidate where
  title : String
  company : String
  location : String
  link : String
  seniority : String
deriving DecidableEq, Repr

/-- The identifier the resolver derives for a candidate
(`self._job_id(title, company, loc_txt, link)`, line 218). -/
def candId (c : Candidate) : String :=
  job_id c.title c.company c.location c.link

/-- The row dict built for an accepted candidate
(src/tools/scraping_tools.py lines 222-245). -/
def mkRow (today keywords : String) (c : Candidate) : Dict :=
  [("job_id", .s (candId c)),
   ("date_scraped", .s today),
   ("title", .s c.title),
   ("company", .s c.company),
   ("location", .s c.location),
   ("link", .s c.link),
   ("source", .s "LinkedIn"),
   ("raw_description", .s ""),
   ("keywords_matched", .s keywords),
   ("resume_customized", .s "no"),
   ("ats_score_checked", .s "no"),
   ("ats_score", .s ""),
   ("approved_for_application", .s "no"),
   ("application_submitted", .s "no"),
   ("resume_id_used", .s ""),
   ("date_applied", .s ""),
   ("seniority_level", .s c.seniority),
   ("employment_type", .s ""),
   ("salary_range", .s ""),
   ("skills_extracted", .s "")]

/-- One step of `_load_existing_ids`'s scan: `if jid: ids.add(jid)`
(the set holds the truthy string cells; CSV rows are string-valued). -/
def idStep (ids : List String) (r : Dict) : List String :=
  match dget r "job_id" with
  | some (.s jid) => if jid ≠ "" ∧ ¬ jid ∈ ids then jid :: ids else ids
  | _ => ids

/-- Embedding of `ScrapeLinkedInTool._load_existing_ids`: the set of
truthy `job_id` cells of the partition. -/
def load_existing_ids (rows : List Dict) : List String :=
  rows.foldl idStep []

/-- Embedding of the dedup/append portion of
`ScrapeLinkedInTool._run` (lines 163-165 and 218-254): load the ids
already in the partition, drop each candidate whose id is in that set
(the set is not extended during the loop, exactly as in the source),
append the rest in order.  Returns the new partition contents and the
appended count. -/
def appendBatch (existing : List Dict) (cands : List Candidate)
    (today keywords : String) : List Dict × Nat :=
  let ids := load_existing_ids existing
  let toApp := cands.foldl (fun acc c =>
    if candId c ∈ ids then acc else acc ++ [mkRow today keywords c]) []
  (existing ++ toApp, toApp.length)

/-! ## Workflow update path (src/tools/workflow_tools.py) -/

/-- Embedding of `_bool_to_yesno` (lines 31-39). -/
def bool_to_yesno : PyVal → PyVal
  | .b x => .s (if x then "yes" else "no")
  | .s v =>
      let low := pyLower (pyStrip v)
      if low = "yes" ∨ low = "no" then .s low
      else if low = "true" ∨ low = "y" ∨ low = "1" then .s "yes"
      else if low = "false" ∨ low = "n" ∨ low = "0" then .s "no"
      else .s v
  | v => v

/-- The record store: the existing partition files keyed by date string
(the `data/jobs_<date>.csv` files), as an association list. -/
structure Store where
  parts : List (String × List Dict)
deriving DecidableEq, Repr

/-- Content of the partition for a date, if that file exists. -/
def Store.lookup (st : Store) (d : String) : Option (List Dict) :=
  match st.parts.find? (fun p => p.1 = d) with
  | some p => some p.2
  | none => none

/-- Replace the content of one partition. -/
def Store.set (st : Store) (d : String) (rows : List Dict) : Store :=
  ⟨st.parts.map (fun p => if p.1 = d then (d, rows) else p)⟩

/-- Partition file name for a date (`_csv_for_date`, data-dir
relative). -/
def csv_for_date (d : String) : String := "jobs_" ++ d ++ ".csv"

/-- Embedding of `_latest_csv`: the lexicographically largest partition
date (sorted glob, last element), `none` when the store is empty. -/
def latestDate (st : Store) : Option String :=
  st.parts.foldl (fun m kv =>
    match m with
    | none => some kv.1
    | some d => some (if d < kv.1 then kv.1 else d)) none

/-- Embedding of `UpdateJobsCsvTool._resolve_csv_path` (lines 109-115),
returning the resolved partition date: an explicitly supplied truthy
date resolves only to its own file; otherwise today's file if it
exists, else the latest one. -/
def resolve_csv_path (st : Store) (today : String) (dateStr : Option String) :
    Option String :=
  match dateStr with
  | some ds =>
      if ds ≠ "" then (if (st.lookup ds).isSome then some ds else none)
      else if (st.lookup today).isSome then some today else latestDate st
  | none =>
      if (st.lookup today).isSome then some today else latestDate st

/-- Embedding of `UpdateJobsCsvTool._apply_action` (lines 117-135); the
Python mutates `updates` in place, the embedding returns it. -/
def apply_action (action : String) (updates args : Dict) : Dict :=
  let a := pyLower (pyStrip action)
  if a = "approve" then dset updates "approved_for_application" (.s "yes")
  else if a = "submit_application" then
    let u := dset updates "application_submitted" (.s "yes")
    let u := match dget args "resume_id_used" with
      | some v => dset u "resume_id_used" v
      | none => u
    match dget args "date_applied" with
      | some v => dset u "date_applied" v
      | none => u
  else if a = "mark_resume_customized" then
    let u := dset updates "resume_customized" (.s "yes")
    match dget args "resume_id_used" with
      | some v => dset u "resume_id_used" v
      | none => u
  else if a = "set_ats_score" then
    let u := match dget args "ats_score" with
      | some v => dset updates "ats_score" v
      | none => updates
    dsetdefault u "ats_score_checked" (.s "yes")
  else updates

/-- The parsed update request (`payload` after `json.loads`, with the
`or {}` coercions of lines 155-157 applied to `updates` and `args`). -/
structure Payload where
  job_id : Option PyVal
  updates : Dict
  date : Option String
  action : Option String
  args : Dict
deriving Repr

/-- Lines 158-159: `if action: self._apply_action(action, updates, args)`
(a truthy action expands the update dict, any other leaves it alone). -/
def expandUpdates (p : Payload) : Dict :=
  match p.action with
  | some a => if a ≠ "" then apply_action a p.updates p.args else p.updates
  | none => p.updates

/-- One step of the whitelist loop of lines 162-165. -/
def sanStep (acc : Dict) (kv : String × PyVal) : Dict :=
  if kv.1 ∈ UPDATABLE_FIELDS then dset acc kv.1 (bool_to_yesno kv.2) else acc

/-- Lines 162-165: keep only `UPDATABLE_FIELDS` keys and canonicalize
boolean-like values. -/
def sanitizePass (u : Dict) : Dict := u.foldl sanStep []

/-- `not sanitized.get("date_applied")`: key absent or value falsy. -/
def dateMissing (s : Dict) : Bool :=
  match dget s "date_applied" with
  | none => true
  | some v => ¬ pyTruthy v

/-- Lines 167-169: stamp today's date when submitting without a date. -/
def autofillDate (s : Dict) (today : String) : Dict :=
  if dget s "application_submitted" = some (.s "yes") ∧ dateMissing s then
    dset s "date_applied" (.s today)
  else s

/-- `r.get("job_id") == job_id` for one row (a missing key gives
Python `None`, equal to no truthy scalar). -/
def matchesId (jid : PyVal) (r : Dict) : Bool :=
  match dget r "job_id" with
  | some v => pyEq v jid
  | none => false

/-- The mutation of the located row inside `rows`
(`target.update(sanitized)` on the first match, line 180). -/
def updateRows (rows : List Dict) (jid : PyVal) (san : Dict) : List Dict :=
  match rows with
  | [] => []
  | r :: rest =>
      if matchesId jid r then dictUpdate r san :: rest
      else r :: updateRows rest jid san

/-- One serialized CSV row as written by `_write_all_atomic`
(lines 72-74): every schema field present, stringified. -/
def writeRow (r : Dict) : Dict :=
  CSV_FIELDS.map (fun k => (k, PyVal.s (pyStr ((dget r k).getD (.s "")))))

/-- The `r.setdefault(k, "")` mutations of lines 72-73, visible in the
returned row object. -/
def fillDefaults (r : Dict) : Dict :=
  CSV_FIELDS.foldl (fun acc k => dsetdefault acc k (.s "")) r

/-- The filesystem slice `_write_all_atomic` touches: the partition
file's content and the temporary file beside it. -/
structure PartFS where
  main : List Dict
  tmp : Option (List Dict)
deriving DecidableEq, Repr

/-- Failure oracle for `_write_all_atomic`: succeed, fail after `n`
rows of the temporary file are written, or fail in `os.replace`. -/
inductive WOutcome where
  | ok : WOutcome
  | failTmp : Nat → String → WOutcome
  | failReplace : String → WOutcome
deriving DecidableEq, Repr

/-- Embedding of `_write_all_atomic` (lines 65-76): serialize every row
to a temporary file, then `os.replace` it over the partition file in
one atomic rename.  Returns the raised exception message, if any, and
the resulting filesystem slice. -/
def write_all_atomic (fs : PartFS) (rows : List Dict) (o : WOutcome) :
    Option String × PartFS :=
  let content := rows.map writeRow
  match o with
  | .ok => (none, { main := content, tmp := none })
  | .failTmp n e => (some e, { main := fs.main, tmp := some (content.take n) })
  | .failReplace e => (some e, { main := fs.main, tmp := some content })

/-- Result of one update call: `ok csv_path updated_fields row` for the
success JSON, `err message` for the failure JSON. -/
inductive RunResult where
  | ok : String → Dict → Dict → RunResult
  | err : String → RunResult
deriving DecidableEq, Repr

/-- Lines 143-178 of `UpdateJobsCsvTool._run`: everything before the
write — id validation, partition resolution, load, action expansion,
sanitization, the date autofill and the target lookup.  Returns the
early-return error message, or the data the write step needs:
`(partition date, its rows, the requested id, the sanitized update
set, the located row)`. -/
def prepareUpdate (st : Store) (today : String) (p : Payload) :
    Except String (String × List Dict × PyVal × Dict × Dict) :=
  match p.job_id with
  | none => .error "Missing 'job_id'."
  | some jid =>
    if ¬ pyTruthy jid then .error "Missing 'job_id'."
    else
      match resolve_csv_path st today p.date with
      | none => .error "No CSV found for the given date, and no prior CSVs exist."
      | some pd =>
        if ((st.lookup pd).getD []).isEmpty then
          .error ("No rows in CSV: " ++ csv_for_date pd)
        else
          match ((st.lookup pd).getD []).find? (matchesId jid) with
          | none => .error ("job_id not found: " ++ pyStr jid)
          | some target =>
            .ok (pd, (st.lookup pd).getD [], jid,
                 autofillDate (sanitizePass (expandUpdates p)) today, target)

/-- Embedding of `UpdateJobsCsvTool._run` (lines 137-192) after JSON
parsing, threading the store and the write-failure oracle: the prepare
stage above, then `target.update(sanitized)` and `_write_all_atomic`
(lines 180-192). -/
def runUpdate (st : Store) (today : String) (p : Payload) (o : WOutcome) :
    RunResult × Store :=
  match prepareUpdate st today p with
  | .error e => (.err e, st)
  | .ok (pd, rows, jid, sanitized, target) =>
    match write_all_atomic ⟨rows, none⟩ (updateRows rows jid sanitized) o with
    | (some e, _) => (.err ("Failed to write CSV: " ++ e), st)
    | (none, fs) =>
      (.ok (csv_for_date pd) sanitized (fillDefaults (dictUpdate target sanitized)),
       st.set pd fs.main)

/-! ## Projections and concrete instances used by the claims -/

/-- The row object of a success result. -/
def RunResult.rowOf : RunResult → Option Dict
  | .ok _ _ r => some r
  | .err _ => none

/-- The applied (sanitized) update set of a success result. -/
def RunResult.fieldsOf : RunResult → Option Dict
  | .ok _ f _ => some f
  | .err _ => none

/-- The `job_id` cells of a partition, in row order. -/
def jobIdsOf (rows : List Dict) : List (Option PyVal) :=
  rows.map (fun r => dget r "job_id")

/-- Every row of a partition carries a truthy string `job_id` (true of
every partition the scraper writes). -/
def RowsIdOk (rows : List Dict) : Prop :=
  ∀ r ∈ rows, ∃ s, dget r "job_id" = some (PyVal.s s) ∧ s ≠ ""

/-- A sequence of append calls: each batch is
`(today, keywords, candidates)`. -/
def appendMany (existing : List Dict)
    (batches : List (String × String × List Candidate)) : List Dict :=
  batches.foldl (fun rows b => (appendBatch rows b.2.2 b.1 b.2.1).1) existing

/-- A dict whose keys are pairwise distinct (every Python dict). -/
def NodupKeys (d : Dict) : Prop := (d.map Prod.fst).Nodup

/-- Lowercase hexadecimal digit. -/
def isLowerHex (c : Char) : Bool :=
  (48 ≤ c.toNat ∧ c.toNat ≤ 57) ∨ (97 ≤ c.toNat ∧ c.toNat ≤ 102)

/-- A one-row partition used by the concrete counterexamples. -/
def exRow : Dict :=
  [("job_id", .s "j1"), ("title", .s "T"), ("company", .s "C"),
   ("location", .s "L"), ("link", .s "http://a/b"), ("source", .s "LinkedIn"),
   ("date_scraped", .s "2025-01-01"), ("raw_description", .s "orig"),
   ("keywords_matched", .s "kw"), ("resume_customized", .s "no"),
   ("ats_score_checked", .s "no"), ("ats_score", .s ""),
   ("approved_for_application", .s "no"), ("application_submitted", .s "no"),
   ("resume_id_used", .s ""), ("date_applied", .s ""),
   ("seniority_level", .s "Entry"), ("employment_type", .s ""),
   ("salary_range", .s ""), ("skills_extracted", .s "")]

/-- A store holding that single partition. -/
def exStore : Store := ⟨[("2025-01-01", [exRow])]⟩

/-- Payload attempting to overwrite the provenance field
`raw_description` (claim C3). -/
def exPayloadC3 : Payload :=
  ⟨some (.s "j1"), [("raw_description", .s "CHANGED")], some "2025-01-01", none, []⟩

/-- Payload with action `approve` and a conflicting explicit value for
the very field the action sets (claim C4). -/
def exPayloadC4 : Payload :=
  ⟨some (.s "j1"), [("approved_for_application", .s "no")], some "2025-01-01",
   some "approve", []⟩

/-- A candidate with empty identity fields (any duplicate pair of
candidates works; empty fields keep the hash input small). -/
def exCand : Candidate := ⟨"", "", "", "", "Associate"⟩

/-! ## Helper lemmas: lists -/

theorem takeWhile_append_all {α : Type} {P : α → Bool} {l₁ : List α}
    (l₂ : List α) (h : ∀ a ∈ l₁, P a = true) :
    (l₁ ++ l₂).takeWhile P = l₁ ++ l₂.takeWhile P := by
  induction l₁ with
  | nil => simp
  | cons a l ih =>
    simp only [List.cons_append, List.takeWhile_cons, if_pos (h a (by simp))]
    rw [ih (fun x hx => h x (by simp [hx]))]

theorem dropWhile_append_all {α : Type} {P : α → Bool} {l₁ : List α}
    (l₂ : List α) (h : ∀ a ∈ l₁, P a = true) :
    (l₁ ++ l₂).dropWhile P = l₂.dropWhile P := by
  induction l₁ with
  | nil => simp
  | cons a l ih =>
    simp only [List.cons_append, List.dropWhile_cons, h a (by simp), if_true]
    exact ih (fun x hx => h x (by simp [hx]))

theorem takeWhile_all {α : Type} {P : α → Bool} {l : List α}
    (h : ∀ a ∈ l, P a = true) : l.takeWhile P = l := by
  have := takeWhile_append_all [] h
  simpa using this

theorem dropWhile_all {α : Type} {P : α → Bool} {l : List α}
    (h : ∀ a ∈ l, P a = true) : l.dropWhile P = [] := by
  have := dropWhile_append_all [] h
  simpa using this

theorem dropTrailing_snoc {P : Char → Bool} {l : List Char} {c : Char}
    (h : P c = true) : dropTrailing P (l ++ [c]) = dropTrailing P l := by
  simp [dropTrailing, List.dropWhile_cons, h]

theorem foldl_invariant {α β : Type} (P : β → Prop) (f : β → α → β)
    (l : List α) (b : β) (h0 : P b) (hstep : ∀ x a, a ∈ l → P x → P (f x a)) :
    P (l.foldl f b) := by
  induction l generalizing b with
  | nil => exact h0
  | cons a l ih =>
    exact ih _ (hstep _ _ (by simp) h0) (fun x a' ha' hx => hstep x a' (by simp [ha']) hx)

/-! ## Helper lemmas: dicts -/

theorem dget_cons (k' : String) (v : PyVal) (d : Dict) (k : String) :
    dget ((k', v) :: d) k = if k' = k then some v else dget d k := by
  by_cases h : k' = k
  · simp [dget, List.find?_cons_of_pos, h]
  · simp only [dget, if_neg h]
    rw [List.find?_cons_of_neg _ (by simpa using h)]

theorem dget_append (d e : Dict) (k : String) :
    dget (d ++ e) k = match dget d k with
      | some v => some v
      | none => dget e k := by
  induction d with
  | nil => simp [dget]
  | cons kv d ih =>
    obtain ⟨k', v⟩ := kv
    by_cases h : k' = k
    · simp [List.cons_append, dget_cons, h]
    · simp only [List.cons_append, dget_cons, if_neg h]
      exact ih

theorem dget_eq_none_of_forall (d : Dict) (k : String)
    (h : ∀ kv ∈ d, kv.1 ≠ k) : dget d k = none := by
  unfold dget
  rw [List.find?_eq_none.mpr]
  intro x hx
  simpa using h x hx

theorem dget_mapReplace (d : Dict) (k k' : String) (v : PyVal) :
    dget (d.map (fun p => if p.1 = k then (k, v) else p)) k' =
      if k = k' then (dget d k).map (fun _ => v) else dget d k' := by
  induction d with
  | nil => by_cases h : k = k' <;> simp [dget, h]
  | cons kv d ih =>
    obtain ⟨a, b⟩ := kv
    simp only [List.map_cons]
    by_cases hak : a = k
    · subst hak
      rw [show (if ((a, b) : String × PyVal).1 = a then ((a, v) : String × PyVal)
            else (a, b)) = (a, v) from by simp]
      simp only [dget_cons, ih]
      by_cases hk' : a = k' <;> simp [hk']
    · rw [show (if ((a, b) : String × PyVal).1 = k then ((k, v) : String × PyVal)
            else (a, b)) = (a, b) from by simp [hak]]
      simp only [dget_cons, ih]
      by_cases hk' : a = k'
      · have hkk : ¬ k = k' := fun he => hak (hk'.trans he.symm)
        simp [hk', hak, hkk]
      · simp [hk', hak]

theorem dget_isSome_of_find (d : Dict) (k : String)
    (hs : (d.find? (fun p => p.1 = k)).isSome = true) :
    ∃ w, dget d k = some w := by
  unfold dget
  cases hf : d.find? (fun p => p.1 = k) with
  | none => rw [hf] at hs; simp at hs
  | some q => exact ⟨q.2, rfl⟩

theorem dget_none_of_not_find (d : Dict) (k : String)
    (hs : ¬ (d.find? (fun p => p.1 = k)).isSome = true) :
    dget d k = none := by
  unfold dget
  cases hf : d.find? (fun p => p.1 = k) with
  | none => rfl
  | some q => rw [hf] at hs; simp at hs

theorem dget_dset_self (d : Dict) (k : String) (v : PyVal) :
    dget (dset d k v) k = some v := by
  unfold dset
  split
  · rename_i hs
    rw [dget_mapReplace, if_pos rfl]
    obtain ⟨w, hw⟩ := dget_isSome_of_find d k hs
    rw [hw]
    rfl
  · rename_i hn
    rw [dget_append, dget_none_of_not_find d k hn]
    simp [dget_cons]

theorem dget_dset_ne (d : Dict) (k k' : String) (v : PyVal) (h : k ≠ k') :
    dget (dset d k v) k' = dget d k' := by
  unfold dset
  split
  · rw [dget_mapReplace, if_neg h]
  · rw [dget_append]
    cases hd : dget d k' with
    | some w => rfl
    | none => simp [dget_cons, h, dget]

theorem dget_dsetdefault_of_some (d : Dict) (k k' : String) (v v' : PyVal)
    (h : dget d k = some v) : dget (dsetdefault d k' v') k = some v := by
  unfold dsetdefault
  split
  · exact h
  · rw [dget_append, h]

theorem dget_dictUpdate_of_none (d u : Dict) (k : String)
    (h : dget u k = none) : dget (dictUpdate d u) k = dget d k := by
  induction u generalizing d with
  | nil => rfl
  | cons kv u ih =>
    obtain ⟨k', v⟩ := kv
    rw [dget_cons] at h
    by_cases hk : k' = k
    · simp [hk] at h
    · simp only [if_neg hk] at h
      show dget (dictUpdate (dset d k' v) u) k = dget d k
      rw [ih _ h, dget_dset_ne _ _ _ _ hk]

theorem nodupKeys_cons {kv : String × PyVal} {u : Dict} (h : NodupKeys (kv :: u)) :
    NodupKeys u ∧ ∀ kv' ∈ u, kv'.1 ≠ kv.1 := by
  unfold NodupKeys at h ⊢
  simp only [List.map_cons, List.nodup_cons] at h
  refine ⟨h.2, fun kv' hkv' he => h.1 ?_⟩
  rw [← he]
  exact List.mem_map_of_mem _ hkv'

theorem dget_dictUpdate_of_some (d u : Dict) (k : String) (v : PyVal)
    (hu : NodupKeys u) (h : dget u k = some v) :
    dget (dictUpdate d u) k = some v := by
  induction u generalizing d with
  | nil => simp [dget] at h
  | cons kv u ih =>
    obtain ⟨k', v'⟩ := kv
    obtain ⟨hu', hne⟩ := nodupKeys_cons hu
    rw [dget_cons] at h
    by_cases hk : k' = k
    · simp only [if_pos hk] at h
      cases h
      show dget (dictUpdate (dset d k' v) u) k = some v
      rw [dget_dictUpdate_of_none, hk, dget_dset_self]
      apply dget_eq_none_of_forall
      intro kv' hkv' he
      exact hne kv' hkv' (he.trans hk.symm)
    · simp only [if_neg hk] at h
      exact ih _ hu' h

theorem dget_fillDefaults_of_some (r : Dict) (k : String) (v : PyVal)
    (h : dget r k = some v) : dget (fillDefaults r) k = some v := by
  unfold fillDefaults
  exact foldl_invariant (fun d => dget d k = some v) _ CSV_FIELDS r h
    (fun x a _ hx => dget_dsetdefault_of_some x k a v (.s "") hx)

/-! ## Helper lemmas: the sanitize / autofill pipeline -/

theorem nodupKeys_nil : NodupKeys [] := by simp [NodupKeys]

theorem not_key_of_dget_none (d : Dict) (k : String) (h : dget d k = none) :
    ∀ p ∈ d, p.1 ≠ k := by
  unfold dget at h
  cases hf : d.find? (fun p => p.1 = k) with
  | some q => rw [hf] at h; simp at h
  | none =>
    intro p hp
    have := List.find?_eq_none.mp hf p hp
    simpa using this

theorem nodupKeys_dset (d : Dict) (k : String) (v : PyVal) (h : NodupKeys d) :
    NodupKeys (dset d k v) := by
  unfold dset
  split
  · unfold NodupKeys at h ⊢
    have he : (d.map (fun p => if p.1 = k then (k, v) else p)).map Prod.fst =
        d.map Prod.fst := by
      rw [List.map_map]
      apply List.map_congr_left
      intro p _
      by_cases hpk : p.1 = k <;> simp [hpk]
    rw [he]
    exact h
  · rename_i hn
    unfold NodupKeys at h ⊢
    rw [List.map_append]
    refine List.Nodup.append h (by simp) ?_
    intro x hx hx2
    simp only [List.map_cons, List.map_nil, List.mem_singleton] at hx2
    subst hx2
    obtain ⟨p, hp, hpk⟩ := List.mem_map.mp hx
    exact not_key_of_dget_none d x (dget_none_of_not_find d x (by simpa using hn)) p hp hpk

theorem nodupKeys_sanStep (acc : Dict) (kv : String × PyVal)
    (h : NodupKeys acc) : NodupKeys (sanStep acc kv) := by
  unfold sanStep
  split
  · exact nodupKeys_dset _ _ _ h
  · exact h

theorem nodupKeys_sanitizePass (u : Dict) : NodupKeys (sanitizePass u) :=
  foldl_invariant NodupKeys sanStep u [] nodupKeys_nil
    (fun x a _ hx => nodupKeys_sanStep x a hx)

theorem nodupKeys_autofillDate (s : Dict) (t : String) (h : NodupKeys s) :
    NodupKeys (autofillDate s t) := by
  unfold autofillDate
  split
  · exact nodupKeys_dset _ _ _ h
  · exact h

theorem sanStep_notkey (acc : Dict) (kv : String × PyVal) (k : String)
    (hne : kv.1 ≠ k) : dget (sanStep acc kv) k = dget acc k := by
  unfold sanStep
  split
  · exact dget_dset_ne _ _ _ _ hne
  · rfl

theorem sanitize_foldl_skip (u : Dict) (k : String) (acc : Dict)
    (h : ∀ kv ∈ u, kv.1 ≠ k) :
    dget (u.foldl sanStep acc) k = dget acc k := by
  induction u generalizing acc with
  | nil => rfl
  | cons kv u ih =>
    rw [List.foldl_cons, ih _ (fun kv' h' => h kv' (by simp [h'])),
      sanStep_notkey _ _ _ (h kv (by simp))]

theorem dget_sanitizePass_not_updatable (u : Dict) (k : String)
    (hk : ¬ k ∈ UPDATABLE_FIELDS) : dget (sanitizePass u) k = none := by
  unfold sanitizePass
  refine foldl_invariant (fun d => dget d k = none) _ _ _ rfl ?_
  intro x kv _ hx
  unfold sanStep
  split
  · rename_i hin
    rw [dget_dset_ne _ _ _ _ (fun he => hk (by rw [← he]; exact hin))]
    exact hx
  · exact hx

theorem sanitize_foldl_of_some (u : Dict) (k : String) (v : PyVal)
    (hu : NodupKeys u) (h : dget u k = some v) (hk : k ∈ UPDATABLE_FIELDS) :
    ∀ acc : Dict, dget (u.foldl sanStep acc) k = some (bool_to_yesno v) := by
  induction u with
  | nil => simp [dget] at h
  | cons kv u ih =>
    intro acc
    obtain ⟨k0, v0⟩ := kv
    obtain ⟨hu', hne⟩ := nodupKeys_cons hu
    rw [dget_cons] at h
    rw [List.foldl_cons]
    by_cases hkk : k0 = k
    · subst hkk
      rw [if_pos rfl] at h
      cases h
      rw [sanitize_foldl_skip u k0 _ (fun kv' h' => hne kv' h')]
      unfold sanStep
      rw [if_pos hk]
      exact dget_dset_self _ _ _
    · rw [if_neg hkk] at h
      exact ih hu' h (sanStep acc (k0, v0))

theorem dget_sanitizePass_of_some (u : Dict) (k : String) (v : PyVal)
    (hu : NodupKeys u) (h : dget u k = some v) (hk : k ∈ UPDATABLE_FIELDS) :
    dget (sanitizePass u) k = some (bool_to_yesno v) :=
  sanitize_foldl_of_some u k v hu h hk []

theorem dget_autofillDate_ne (s : Dict) (t : String) (k : String)
    (h : k ≠ "date_applied") : dget (autofillDate s t) k = dget s k := by
  unfold autofillDate
  split
  · exact dget_dset_ne _ _ _ _ (Ne.symm h)
  · rfl

/-! ## Helper lemmas: rows, store -/

theorem updateRows_getElem (rows : List Dict) (jid : PyVal) (san : Dict)
    (i : Nat) :
    (updateRows rows jid san)[i]? = rows[i]? ∨
    (updateRows rows jid san)[i]? =
      Option.map (fun r => dictUpdate r san) rows[i]? := by
  induction rows generalizing i with
  | nil => left; rfl
  | cons r rest ih =>
    unfold updateRows
    by_cases h : matchesId jid r
    · rw [if_pos h]
      cases i with
      | zero => right; simp
      | succ n => left; simp
    · rw [if_neg h]
      cases i with
      | zero => left; simp
      | succ n => simpa using ih n

theorem store_find_set {β : Type} (l : List (String × β)) (k k' : String)
    (v : β) :
    (l.map (fun p => if p.1 = k then (k, v) else p)).find? (fun p => p.1 = k') =
      if k = k' then (l.find? (fun p => p.1 = k)).map (fun _ => (k, v))
      else l.find? (fun p => p.1 = k') := by
  induction l with
  | nil => by_cases h : k = k' <;> simp [h]
  | cons p l ih =>
    obtain ⟨a, b⟩ := p
    simp only [List.map_cons]
    by_cases hak : a = k
    · subst hak
      rw [show (if ((a, b) : String × β).1 = a then ((a, v) : String × β)
            else (a, b)) = (a, v) from by simp]
      by_cases hk' : a = k'
      · subst hk'
        rw [if_pos rfl, List.find?_cons_of_pos _ (by simp),
          List.find?_cons_of_pos _ (by simp)]
        rfl
      · rw [if_neg hk', List.find?_cons_of_neg _ (by simpa using hk'),
          List.find?_cons_of_neg _ (by simpa using hk'), ih, if_neg hk']
    · rw [show (if ((a, b) : String × β).1 = k then ((k, v) : String × β)
            else (a, b)) = (a, b) from by simp [hak]]
      by_cases hk' : a = k'
      · have hkk : ¬ k = k' := fun he => hak (hk'.trans he.symm)
        rw [if_neg hkk, List.find?_cons_of_pos _ (by simpa using hk'),
          List.find?_cons_of_pos _ (by simpa using hk')]
      · rw [List.find?_cons_of_neg _ (by simpa using hk'), ih]
        by_cases hkk : k = k'
        · subst hkk
          rw [if_pos rfl, if_pos rfl,
            List.find?_cons_of_neg _ (by simpa using hak)]
        · rw [if_neg hkk, if_neg hkk,
            List.find?_cons_of_neg _ (by simpa using hk')]

theorem store_lookup_set_ne (st : Store) (d d' : String) (rows : List Dict)
    (h : d' ≠ d) : (st.set d rows).lookup d' = st.lookup d' := by
  unfold Store.set Store.lookup
  rw [store_find_set, if_neg (fun he => h he.symm)]

theorem store_lookup_set_self (st : Store) (d : String) (rows : List Dict)
    (h : (st.lookup d).isSome = true) :
    (st.set d rows).lookup d = some rows := by
  unfold Store.set Store.lookup
  rw [store_find_set, if_pos rfl]
  unfold Store.lookup at h
  cases hf : st.parts.find? (fun p => p.1 = d) with
  | none => rw [hf] at h; simp at h
  | some q => rfl

/-! ## Helper lemmas: inversion of the update pipeline -/

theorem dget_keyTable (l : List String) (f : String → PyVal) (k : String)
    (hk : k ∈ l) : dget (l.map (fun k' => (k', f k'))) k = some (f k) := by
  induction l with
  | nil => cases hk
  | cons a l ih =>
    rw [List.map_cons, dget_cons]
    by_cases h : a = k
    · subst h
      rw [if_pos rfl]
    · rw [if_neg h]
      exact ih (by rcases List.mem_cons.mp hk with h1 | h1; exact absurd h1.symm h; exact h1)

theorem dget_writeRow (r : Dict) (k : String) (hk : k ∈ CSV_FIELDS) :
    dget (writeRow r) k = some (.s (pyStr ((dget r k).getD (.s "")))) :=
  dget_keyTable CSV_FIELDS _ k hk

theorem isEmpty_false_of_ne (rows : List Dict) (h : rows ≠ []) :
    rows.isEmpty = false := by
  cases rows with
  | nil => exact absurd rfl h
  | cons r rest => rfl

theorem prepareUpdate_ok_inv {st : Store} {today : String} {p : Payload}
    {pd : String} {rows : List Dict} {jid : PyVal} {san target : Dict}
    (h : prepareUpdate st today p = .ok (pd, rows, jid, san, target)) :
    p.job_id = some jid ∧ pyTruthy jid = true ∧
    resolve_csv_path st today p.date = some pd ∧
    rows = (st.lookup pd).getD [] ∧ rows.isEmpty = false ∧
    san = autofillDate (sanitizePass (expandUpdates p)) today ∧
    rows.find? (matchesId jid) = some target := by
  unfold prepareUpdate at h
  split at h
  · exact Except.noConfusion h
  · rename_i jid0 hj
    split at h
    · exact Except.noConfusion h
    · rename_i ht
      split at h
      · exact Except.noConfusion h
      · rename_i pd0 hres
        split at h
        · exact Except.noConfusion h
        · rename_i hemp
          split at h
          · exact Except.noConfusion h
          · rename_i t0 hf
            simp only [Except.ok.injEq, Prod.mk.injEq] at h
            obtain ⟨h1, h2, h3, h4, h5⟩ := h
            subst h1
            subst h2
            subst h3
            subst h4
            subst h5
            exact ⟨hj, by simpa using ht, hres, rfl, by simpa using hemp, rfl, hf⟩

theorem runUpdate_ok_inv {st : Store} {today : String} {p : Payload}
    {o : WOutcome} {path : String} {flds row : Dict} {st' : Store}
    (h : runUpdate st today p o = (.ok path flds row, st')) :
    ∃ pd rows jid target,
      prepareUpdate st today p = .ok (pd, rows, jid, flds, target) ∧
      o = .ok ∧ path = csv_for_date pd ∧
      row = fillDefaults (dictUpdate target flds) ∧
      st' = st.set pd ((updateRows rows jid flds).map writeRow) := by
  unfold runUpdate at h
  split at h
  · simp at h
  · rename_i pd rows jid san target hprep
    split at h
    · rename_i e snd hw
      simp at h
    · rename_i fs hw
      simp only [Prod.mk.injEq, RunResult.ok.injEq] at h
      obtain ⟨⟨hpath, hflds, hrow⟩, hst⟩ := h
      subst hpath
      subst hflds
      subst hrow
      cases o with
      | ok =>
        simp only [write_all_atomic, Prod.mk.injEq] at hw
        refine ⟨pd, rows, jid, target, hprep, rfl, rfl, rfl, ?_⟩
        rw [← hst, ← hw.2]
      | failTmp n e => simp [write_all_atomic] at hw
      | failReplace e => simp [write_all_atomic] at hw

theorem runUpdate_err_of_prepare_err {st : Store} {today : String}
    {p : Payload} {o : WOutcome} {e : String}
    (h : prepareUpdate st today p = .error e) :
    runUpdate st today p o = (.err e, st) := by
  unfold runUpdate
  rw [h]

theorem runUpdate_err_store {st : Store} {today : String} {p : Payload}
    {o : WOutcome} {e : String} {st' : Store}
    (h : runUpdate st today p o = (.err e, st')) : st' = st := by
  unfold runUpdate at h
  split at h
  · simp only [Prod.mk.injEq] at h
    exact h.2.symm
  · rename_i pd rows jid san target hprep
    split at h
    · simp only [Prod.mk.injEq] at h
      exact h.2.symm
    · simp only [Prod.mk.injEq] at h
      exact absurd h.1 (by simp)

/-! ## Claim theorems -/

/-- C8: when the target partition resolves and loads successfully with a
non-empty row set but no row's `job_id` equals the requested identifier,
the update returns the record-not-found error and the store (hence the
partition file's content) is unchanged. -/
theorem C8_record_not_found (st : Store) (today : String) (p : Payload)
    (o : WOutcome) (jid : PyVal) (pd : String) (rows : List Dict)
    (hj : p.job_id = some jid) (ht : pyTruthy jid = true)
    (hres : resolve_csv_path st today p.date = some pd)
    (hrows : st.lookup pd = some rows) (hne : rows ≠ [])
    (hnone : ∀ r ∈ rows, matchesId jid r = false) :
    runUpdate st today p o = (.err ("job_id not found: " ++ pyStr jid), st) := by
  apply runUpdate_err_of_prepare_err
  have hemp : rows.isEmpty = false := isEmpty_false_of_ne rows hne
  have hfind : rows.find? (matchesId jid) = none :=
    List.find?_eq_none.mpr (fun x hx => by simp [hnone x hx])
  simp [prepareUpdate, hj, ht, hres, hrows, hemp, hfind]

/-- C10: when the resolved partition file exists but holds zero data
rows (header only), the update fails with the distinct no-rows error —
before any lookup — and the store is unchanged; the error differs from
the record-not-found error for every identifier. -/
theorem C10_empty_partition (st : Store) (today : String) (p : Payload)
    (o : WOutcome) (jid : PyVal) (pd : String)
    (hj : p.job_id = some jid) (ht : pyTruthy jid = true)
    (hres : resolve_csv_path st today p.date = some pd)
    (hrows : st.lookup pd = some []) :
    runUpdate st today p o = (.err ("No rows in CSV: " ++ csv_for_date pd), st) ∧
    ∀ j : String,
      ("No rows in CSV: " ++ csv_for_date pd) ≠ ("job_id not found: " ++ j) := by
  constructor
  · apply runUpdate_err_of_prepare_err
    simp [prepareUpdate, hj, ht, hres, hrows]
  · intro j h
    have e1 : ("No rows in CSV: " ++ csv_for_date pd).data.head? = some 'N' := by
      rw [String.data_append]
      rfl
    have e2 : ("job_id not found: " ++ j).data.head? = some 'j' := by
      rw [String.data_append]
      rfl
    rw [h, e2] at e1
    simp at e1

/-- C9: an action name outside the code's fixed vocabulary (`approve`,
`submit_application`, `mark_resume_customized`, `set_ats_score` — the
spec writes these as prose names) expands to no field updates and is
not an error: the call behaves exactly as if no action were supplied. -/
theorem C9_unknown_action (st : Store) (today : String) (p : Payload)
    (o : WOutcome) (a : String)
    (ha : p.action = some a)
    (hnot : ¬ pyLower (pyStrip a) ∈ (["approve", "submit_application",
        "mark_resume_customized", "set_ats_score"] : List String)) :
    runUpdate st today p o =
      runUpdate st today ⟨p.job_id, p.updates, p.date, none, p.args⟩ o := by
  have hexp : expandUpdates p = p.updates := by
    unfold expandUpdates
    rw [ha]
    show (if a ≠ "" then apply_action a p.updates p.args else p.updates) = p.updates
    by_cases hae : a = ""
    · rw [if_neg (by simp [hae])]
    · rw [if_pos hae]
      simp only [List.mem_cons, List.mem_singleton, not_or] at hnot
      obtain ⟨h1, h2, h3, h4, -⟩ := hnot
      simp only [apply_action]
      rw [if_neg h1, if_neg h2, if_neg h3, if_neg h4]
  have hprep : prepareUpdate st today p =
      prepareUpdate st today ⟨p.job_id, p.updates, p.date, none, p.args⟩ := by
    unfold prepareUpdate
    rw [hexp]
    rfl
  unfold runUpdate
  rw [hprep]

/-- C2: `_write_all_atomic` serializes the full record sequence and
installs it with one atomic replace: on success the partition content
is exactly the serialization and no temporary file remains; on a
failure of the temporary-file write or of the replace the partition
content under its own name is untouched, and an update that would
otherwise have succeeded returns the write-failure error with the
store unchanged. -/
theorem C2_atomic_write (st : Store) (today : String) (p : Payload)
    (fs : PartFS) (rows : List Dict) (n : Nat) (e : String) (o : WOutcome)
    (hfail : o = .failTmp n e ∨ o = .failReplace e)
    (path : String) (flds row : Dict) (st' : Store)
    (hok : runUpdate st today p .ok = (.ok path flds row, st')) :
    (write_all_atomic fs rows o).1 = some e ∧
    (write_all_atomic fs rows o).2.main = fs.main ∧
    (write_all_atomic fs rows .ok).2 = ⟨rows.map writeRow, none⟩ ∧
    runUpdate st today p o = (.err ("Failed to write CSV: " ++ e), st) := by
  obtain ⟨pd, rows0, jid, target, hprep, _, _, _, _⟩ := runUpdate_ok_inv hok
  refine ⟨?_, ?_, rfl, ?_⟩
  · rcases hfail with h | h <;> subst h <;> rfl
  · rcases hfail with h | h <;> subst h <;> rfl
  · unfold runUpdate
    rw [hprep]
    rcases hfail with h | h <;> subst h <;> rfl

theorem apply_action_submit (u args : Dict) :
    apply_action "submit_application" u args =
      (match dget args "date_applied" with
       | some w => dset (match dget args "resume_id_used" with
           | some v =>
             dset (dset u "application_submitted" (.s "yes")) "resume_id_used" v
           | none => dset u "application_submitted" (.s "yes")) "date_applied" w
       | none => match dget args "resume_id_used" with
           | some v =>
             dset (dset u "application_submitted" (.s "yes")) "resume_id_used" v
           | none => dset u "application_submitted" (.s "yes")) := by
  simp only [apply_action]
  rw [if_neg (by decide),
    if_pos (show pyLower (pyStrip "submit_application") =
      ("submit_application" : String) from by decide)]

theorem autofill_pos (s : Dict) (t : String)
    (h1 : dget s "application_submitted" = some (.s "yes"))
    (h2 : dateMissing s = true) :
    autofillDate s t = dset s "date_applied" (.s t) := by
  unfold autofillDate
  rw [if_pos ⟨h1, h2⟩]

theorem autofill_of_truthy_date (s : Dict) (t : String) (v : PyVal)
    (h : dget s "date_applied" = some v) (ht : pyTruthy v = true) :
    autofillDate s t = s := by
  have hcond : ¬ (dget s "application_submitted" = some (PyVal.s "yes") ∧
      dateMissing s = true) := by
    intro hc
    have hm := hc.2
    unfold dateMissing at hm
    rw [h] at hm
    simp [ht] at hm
  unfold autofillDate
  rw [if_neg hcond]

/-- C7: in a successful update, writing the canonical value `yes` to
the submission flag through the sanitized, action-expanded update set
stamps today's date into `date_applied` when that set carries no truthy
date value; a truthy `date_applied` value already in the set is stored
as is. -/
theorem C7_submit_stamps_date (st : Store) (today : String) (p : Payload)
    (o : WOutcome) (path : String) (flds row : Dict) (st' : Store)
    (hrun : runUpdate st today p o = (.ok path flds row, st')) :
    (dget (sanitizePass (expandUpdates p)) "application_submitted" =
        some (.s "yes") →
      dateMissing (sanitizePass (expandUpdates p)) = true →
      dget row "date_applied" = some (.s today)) ∧
    (∀ v, dget (sanitizePass (expandUpdates p)) "date_applied" = some v →
      pyTruthy v = true →
      dget row "date_applied" = some v) := by
  obtain ⟨pd, rows0, jid, target, hprep, ho, hpath, hrow, hst⟩ :=
    runUpdate_ok_inv hrun
  obtain ⟨_, _, _, _, _, hsan, _⟩ := prepareUpdate_ok_inv hprep
  have hnodup : NodupKeys flds := by
    rw [hsan]
    exact nodupKeys_autofillDate _ _ (nodupKeys_sanitizePass _)
  constructor
  · intro hsub hmiss
    rw [hrow]
    have hdate : dget flds "date_applied" = some (.s today) := by
      rw [hsan, autofill_pos _ _ hsub hmiss]
      exact dget_dset_self _ _ _
    exact dget_fillDefaults_of_some _ _ _
      (dget_dictUpdate_of_some _ _ _ _ hnodup hdate)
  · intro v hv htruthy
    rw [hrow]
    have hdate : dget flds "date_applied" = some v := by
      rw [hsan, autofill_of_truthy_date _ _ _ hv htruthy]
      exact hv
    exact dget_fillDefaults_of_some _ _ _
      (dget_dictUpdate_of_some _ _ _ _ hnodup hdate)

/-- C4 (amended): the precedence the code actually implements.  For the
spec's own example the claim holds: with action `submit_application`,
no `date_applied` in the action args and an explicit truthy
`date_applied` in `field_updates`, the stored date is the caller's
explicit one, not today's.  (In general, the fields an action assigns
directly — the flag set to `yes` and any args-supplied values — are
written over the caller's explicit `field_updates`, as
`C4_counterexample` shows; explicit values win only for the fields the
expansion does not itself assign.) -/
theorem C4_explicit_date_wins (st : Store) (today : String) (p : Payload)
    (o : WOutcome) (d : String)
    (ha : p.action = some "submit_application")
    (hargs : dget p.args "date_applied" = none)
    (hupd : dget p.updates "date_applied" = some (.s d))
    (hpass : bool_to_yesno (.s d) = .s d)
    (hd : d ≠ "")
    (hkeys : NodupKeys p.updates)
    (path : String) (flds row : Dict) (st' : Store)
    (hrun : runUpdate st today p o = (.ok path flds row, st')) :
    dget flds "date_applied" = some (.s d) ∧
    dget row "date_applied" = some (.s d) := by
  obtain ⟨pd, rows0, jid, target, hprep, ho, hpath, hrow, hst⟩ :=
    runUpdate_ok_inv hrun
  obtain ⟨_, _, _, _, _, hsan, _⟩ := prepareUpdate_ok_inv hprep
  have hne1 : ("application_submitted" : String) ≠ "date_applied" := by decide
  have hne2 : ("resume_id_used" : String) ≠ "date_applied" := by decide
  have hexpand : expandUpdates p =
      apply_action "submit_application" p.updates p.args := by
    unfold expandUpdates
    rw [ha]
    show (if ("submit_application" : String) ≠ "" then
        apply_action "submit_application" p.updates p.args else p.updates) =
      apply_action "submit_application" p.updates p.args
    rw [if_pos (by decide)]
  have hexp : dget (expandUpdates p) "date_applied" = some (.s d) ∧
      NodupKeys (expandUpdates p) := by
    rw [hexpand, apply_action_submit]
    cases hr : dget p.args "resume_id_used" with
    | none =>
      simp only [hargs, hr]
      refine ⟨?_, nodupKeys_dset _ _ _ hkeys⟩
      rw [dget_dset_ne _ _ _ _ hne1]
      exact hupd
    | some w =>
      simp only [hargs, hr]
      refine ⟨?_, nodupKeys_dset _ _ _ (nodupKeys_dset _ _ _ hkeys)⟩
      rw [dget_dset_ne _ _ _ _ hne2, dget_dset_ne _ _ _ _ hne1]
      exact hupd
  have hs0 : dget (sanitizePass (expandUpdates p)) "date_applied" =
      some (.s d) := by
    rw [dget_sanitizePass_of_some _ _ _ hexp.2 hexp.1 (by decide), hpass]
  have hflds : dget flds "date_applied" = some (.s d) := by
    rw [hsan, autofill_of_truthy_date _ _ _ hs0 (by simp [pyTruthy, hd])]
    exact hs0
  refine ⟨hflds, ?_⟩
  rw [hrow]
  have hnodup : NodupKeys flds := by
    rw [hsan]
    exact nodupKeys_autofillDate _ _ (nodupKeys_sanitizePass _)
  exact dget_fillDefaults_of_some _ _ _
    (dget_dictUpdate_of_some _ _ _ _ hnodup hflds)

/-- C3 (amended): the fields the whitelist actually protects are the
seven subtracted names — the identity fields (`title`, `company`,
`location`, `link`, `job_id`) plus `date_scraped` and `source`.  Their
stored values survive every update call untouched, in every partition
and row, even when `field_updates` names them.  (The other two
provenance fields, `raw_description` and `keywords_matched`, are *not*
protected: `C3_counterexample`.) -/
theorem C3_protected_fields (st : Store) (today : String) (p : Payload)
    (o : WOutcome) (res : RunResult) (st' : Store)
    (hrun : runUpdate st today p o = (res, st'))
    (k : String) (hk : k ∈ REMOVED_FIELDS)
    (dd : String) (rows rows' : List Dict)
    (h1 : st.lookup dd = some rows) (h2 : st'.lookup dd = some rows')
    (i : Nat) (v : String)
    (hv : rows[i]?.bind (fun r => dget r k) = some (.s v)) :
    rows'[i]?.bind (fun r => dget r k) = some (.s v) := by
  have hkcsv : k ∈ CSV_FIELDS := by fin_cases hk <;> decide
  have hkupd : ¬ k ∈ UPDATABLE_FIELDS := by fin_cases hk <;> decide
  have hkda : k ≠ "date_applied" := by fin_cases hk <;> decide
  cases res with
  | err e =>
    have hst : st' = st := runUpdate_err_store hrun
    rw [hst, h1] at h2
    injection h2 with h2
    rw [← h2]
    exact hv
  | ok pth flds row =>
    obtain ⟨pd, rows0, jid, target, hprep, ho, hpath, hrow, hst⟩ :=
      runUpdate_ok_inv hrun
    obtain ⟨_, _, _, hrows0, _, hsan, _⟩ := prepareUpdate_ok_inv hprep
    have hfldsk : dget flds k = none := by
      rw [hsan, dget_autofillDate_ne _ _ _ hkda]
      exact dget_sanitizePass_not_updatable _ _ hkupd
    by_cases hdd : dd = pd
    · subst hdd
      have hlook : (st.lookup dd).isSome = true := by rw [h1]; rfl
      rw [hst] at h2
      rw [store_lookup_set_self _ _ _ hlook] at h2
      injection h2 with h2
      have hrows : rows0 = rows := by rw [hrows0, h1]; rfl
      subst hrows
      rw [← h2]
      cases hri : rows0[i]? with
      | none =>
        rw [hri] at hv
        exact absurd hv (by simp)
      | some r =>
        rw [hri] at hv
        simp only [Option.some_bind] at hv
        rw [List.getElem?_map]
        rcases updateRows_getElem rows0 jid flds i with hcase | hcase
        · rw [hcase, hri]
          simp only [Option.map_some', Option.some_bind]
          rw [dget_writeRow _ _ hkcsv, hv]
          rfl
        · rw [hcase, hri]
          simp only [Option.map_some', Option.some_bind]
          rw [dget_writeRow _ _ hkcsv, dget_dictUpdate_of_none _ _ _ hfldsk, hv]
          rfl
    · rw [hst, store_lookup_set_ne _ _ _ _ hdd, h1] at h2
      injection h2 with h2
      rw [← h2]
      exact hv

/-- C3 counterexample: an update whose `field_updates` names the
provenance field `raw_description` changes that field's stored value
(`orig` becomes `CHANGED`), so the claim that all provenance fields are
protected is false on the code. -/
theorem C3_counterexample :
    ((((runUpdate exStore "2025-01-02" exPayloadC3 .ok).2.lookup
          "2025-01-01").bind (fun rows => rows[0]?)).bind
        (fun r => dget r "raw_description") = some (.s "CHANGED")) ∧
    (((exStore.lookup "2025-01-01").bind (fun rows => rows[0]?)).bind
        (fun r => dget r "raw_description") = some (.s "orig")) := by
  refine ⟨by decide, by decide⟩

/-- C4 counterexample: with action `approve` and the caller's explicit
`approved_for_application = "no"`, the stored value is the
action-derived `"yes"` — the action expansion overwrites the explicit
value, so the claimed merge direction is false on the code. -/
theorem C4_counterexample :
    dget exPayloadC4.updates "approved_for_application" = some (.s "no") ∧
    ((runUpdate exStore "2025-01-02" exPayloadC4 .ok).1.rowOf.bind
        (fun r => dget r "approved_for_application")) = some (.s "yes") ∧
    ((((runUpdate exStore "2025-01-02" exPayloadC4 .ok).2.lookup
          "2025-01-01").bind (fun rows => rows[0]?)).bind
        (fun r => dget r "approved_for_application") = some (.s "yes")) := by
  refine ⟨by decide, by decide, by decide⟩

set_option maxRecDepth 100000 in
/-- C5 counterexample: called with all four inputs empty, the resolver
does not signal an error — it hashes the empty strings (the base string
is `"|||:"` after link normalization) and returns a perfectly
valid-looking 40-character lowercase hexadecimal identifier. -/
theorem C5_counterexample :
    job_id "" "" "" "" = "3dd40ecd3d0d963bcfd397392e039e1806a6ee52" ∧
    ("3dd40ecd3d0d963bcfd397392e039e1806a6ee52" : String).length = 40 ∧
    ("3dd40ecd3d0d963bcfd397392e039e1806a6ee52" : String).data.all
      isLowerHex = true := by
  refine ⟨by decide, by decide, by decide⟩

set_option maxRecDepth 100000 in
/-- C1 counterexample: a single append whose batch holds the same
candidate twice (same normalized identity fields) appends both rows:
the partition ends with two rows but only one distinct `job_id`, and
the reported appended count is 2 — the in-batch duplicate is not
dropped, so the claim is false on the code. -/
theorem C1_counterexample :
    (appendBatch [] [exCand, exCand] "2025-01-01" "kw").1.length = 2 ∧
    ((appendBatch [] [exCand, exCand] "2025-01-01" "kw").1.map
        (fun r => dget r "job_id")).dedup.length = 1 ∧
    (appendBatch [] [exCand, exCand] "2025-01-01" "kw").2 = 2 := by
  refine ⟨by decide, by decide, by decide⟩

/-! ## Helper lemmas: shape of the digest -/

theorem hexDigitChar_isLowerHex (n : Nat) (h : n < 16) :
    isLowerHex (hexDigitChar n) = true := by
  interval_cases n <;> decide

theorem wordHex_length (n : Nat) : (wordHex n).length = 8 := by
  simp [wordHex]

theorem wordHex_isLowerHex (n : Nat) : ∀ c ∈ wordHex n, isLowerHex c = true := by
  intro c hc
  unfold wordHex at hc
  obtain ⟨i, _, hc⟩ := List.mem_map.mp hc
  rw [← hc]
  exact hexDigitChar_isLowerHex _ (Nat.mod_lt _ (by decide))

theorem sha1Hex_eq (msg : List Nat) :
    sha1Hex msg = String.mk (wordHex (sha1Words msg).1 ++
      wordHex (sha1Words msg).2.1 ++ wordHex (sha1Words msg).2.2.1 ++
      wordHex (sha1Words msg).2.2.2.1 ++ wordHex (sha1Words msg).2.2.2.2) := rfl

theorem sha1Hex_length (msg : List Nat) : (sha1Hex msg).length = 40 := by
  rw [sha1Hex_eq]
  show (wordHex (sha1Words msg).1 ++ wordHex (sha1Words msg).2.1 ++
      wordHex (sha1Words msg).2.2.1 ++ wordHex (sha1Words msg).2.2.2.1 ++
      wordHex (sha1Words msg).2.2.2.2).length = 40
  simp [wordHex_length]

theorem sha1Hex_chars (msg : List Nat) :
    ∀ c ∈ (sha1Hex msg).data, isLowerHex c = true := by
  rw [sha1Hex_eq]
  intro c hc
  simp only [List.mem_append] at hc
  rcases hc with ((((h | h) | h) | h) | h) <;> exact wordHex_isLowerHex _ c h

theorem job_id_ne_empty (t c l k : String) : job_id t c l k ≠ "" := by
  intro h
  have h40 : (job_id t c l k).length = 40 := sha1Hex_length _
  rw [h] at h40
  simp [String.length] at h40

/-- C5 (amended): the resolver never signals an error — for every
input, including empty required fields, `job_id` is total and returns a
fixed-width identifier: a 40-character string of lowercase hexadecimal
digits (empty fields are hashed like any other value, see
`C5_counterexample`). -/
theorem C5_total_hex_id (t c l k : String) :
    (job_id t c l k).length = 40 ∧
    ∀ ch ∈ (job_id t c l k).data, isLowerHex ch = true :=
  ⟨sha1Hex_length _, sha1Hex_chars _⟩

/-! ## Helper lemmas: the append path -/

theorem ids_subset_idStep (ids : List String) (r : Dict) :
    ids ⊆ idStep ids r := by
  unfold idStep
  split
  · split
    · exact fun x hx => List.mem_cons_of_mem _ hx
    · exact fun x hx => hx
  · exact fun x hx => hx

theorem mem_foldl_idStep (rows : List Dict) (ids : List String) (a : String)
    (ha : a ∈ ids) : a ∈ rows.foldl idStep ids :=
  foldl_invariant (fun x => a ∈ x) idStep rows ids ha
    (fun x r _ hx => ids_subset_idStep x r hx)

theorem mem_load_of_row : ∀ (rows : List Dict) (ids : List String) (r : Dict),
    r ∈ rows → ∀ s : String, dget r "job_id" = some (.s s) → s ≠ "" →
    s ∈ rows.foldl idStep ids := by
  intro rows
  induction rows with
  | nil =>
    intro ids r hr
    cases hr
  | cons r0 rest ih =>
    intro ids r hr s hs hne
    rw [List.foldl_cons]
    rcases List.mem_cons.mp hr with he | hr'
    · subst he
      apply mem_foldl_idStep
      unfold idStep
      rw [hs]
      show s ∈ (if s ≠ "" ∧ ¬ s ∈ ids then s :: ids else ids)
      by_cases hmem : s ∈ ids
      · rw [if_neg (fun hc => hc.2 hmem)]
        exact hmem
      · rw [if_pos ⟨hne, hmem⟩]
        exact List.mem_cons_self _ _
    · exact ih (idStep ids r0) r hr' s hs hne

theorem mem_load_existing_ids (rows : List Dict) (r : Dict) (hr : r ∈ rows)
    (s : String) (hs : dget r "job_id" = some (.s s)) (hne : s ≠ "") :
    s ∈ load_existing_ids rows :=
  mem_load_of_row rows [] r hr s hs hne

theorem append_foldl_filter (ids : List String) (t k : String)
    (cands : List Candidate) (acc : List Dict) :
    cands.foldl (fun a c =>
        if candId c ∈ ids then a else a ++ [mkRow t k c]) acc =
      acc ++ (cands.filter (fun c => ¬ candId c ∈ ids)).map (mkRow t k) := by
  induction cands generalizing acc with
  | nil => simp
  | cons c cs ih =>
    rw [List.foldl_cons]
    by_cases hc : candId c ∈ ids
    · rw [if_pos hc, ih, List.filter_cons_of_neg (by simp [hc])]
    · rw [if_neg hc, ih, List.filter_cons_of_pos (by simp [hc])]
      simp

theorem appendBatch_fst (existing : List Dict) (cands : List Candidate)
    (t k : String) :
    (appendBatch existing cands t k).1 =
      existing ++ (cands.filter
        (fun c => ¬ candId c ∈ load_existing_ids existing)).map (mkRow t k) := by
  show existing ++ cands.foldl (fun a c =>
      if candId c ∈ load_existing_ids existing then a
      else a ++ [mkRow t k c]) [] = _
  rw [append_foldl_filter]
  simp

theorem dget_mkRow_job_id (t k : String) (c : Candidate) :
    dget (mkRow t k c) "job_id" = some (.s (candId c)) := by
  simp [mkRow, dget_cons]

theorem appendBatch_step (existing : List Dict) (cands : List Candidate)
    (t k : String)
    (hok : RowsIdOk existing) (hnd : (jobIdsOf existing).Nodup)
    (hb : (cands.map candId).Nodup) :
    RowsIdOk (appendBatch existing cands t k).1 ∧
    (jobIdsOf (appendBatch existing cands t k).1).Nodup := by
  rw [appendBatch_fst]
  constructor
  · intro r hr
    rcases List.mem_append.mp hr with h | h
    · exact hok r h
    · obtain ⟨c, _, hc⟩ := List.mem_map.mp h
      exact ⟨candId c, by rw [← hc]; exact dget_mkRow_job_id t k c,
        job_id_ne_empty _ _ _ _⟩
  · unfold jobIdsOf
    rw [List.map_append]
    have hmapeq : ((cands.filter
          (fun c => ¬ candId c ∈ load_existing_ids existing)).map
            (mkRow t k)).map (fun r => dget r "job_id") =
        ((cands.filter
          (fun c => ¬ candId c ∈ load_existing_ids existing)).map candId).map
            (fun s => some (PyVal.s s)) := by
      rw [List.map_map, List.map_map]
      exact List.map_congr_left (fun c _ => dget_mkRow_job_id t k c)
    rw [hmapeq]
    apply List.Nodup.append hnd
    · apply List.Nodup.map (fun a b hab => by injection hab with hab; injection hab)
      exact List.Nodup.sublist (List.Sublist.map candId (List.filter_sublist _)) hb
    · intro a ha ha2
      obtain ⟨r, hrmem, hrid⟩ := List.mem_map.mp ha
      obtain ⟨s0, hs0, hs0ne⟩ := hok r hrmem
      obtain ⟨cid, hcidmem, hcid⟩ := List.mem_map.mp ha2
      obtain ⟨c, hcmem, hcfid⟩ := List.mem_map.mp hcidmem
      have hcnotin : ¬ candId c ∈ load_existing_ids existing := by
        have := (List.mem_filter.mp hcmem).2
        simpa using this
      have hsa : a = some (PyVal.s s0) := by rw [← hrid, hs0]
      have hsc : a = some (PyVal.s cid) := hcid.symm
      have : s0 = cid := by
        rw [hsa] at hsc
        injection hsc with hsc
        injection hsc
      apply hcnotin
      rw [hcfid, ← this]
      exact mem_load_existing_ids existing r hrmem s0 hs0 hs0ne

theorem appendMany_inv : ∀ (batches : List (String × String × List Candidate))
    (existing : List Dict), RowsIdOk existing → (jobIdsOf existing).Nodup →
    (∀ b ∈ batches, (b.2.2.map candId).Nodup) →
    RowsIdOk (appendMany existing batches) ∧
    (jobIdsOf (appendMany existing batches)).Nodup := by
  intro batches
  induction batches with
  | nil =>
    intro existing h0 h1 _
    exact ⟨h0, h1⟩
  | cons b bs ih =>
    intro existing h0 h1 hb
    have step := appendBatch_step existing b.2.2 b.1 b.2.1 h0 h1
      (hb b (List.mem_cons_self _ _))
    show RowsIdOk (appendMany (appendBatch existing b.2.2 b.1 b.2.1).1 bs) ∧ _
    exact ih _ step.1 step.2 (fun b' hb' => hb b' (List.mem_cons_of_mem _ hb'))

/-- C1 (amended): after any sequence of append calls the partition has
no duplicate `job_id` — the set of `job_id` cells has cardinality equal
to the row count — provided each batch contains no two candidates with
the same normalized identity fields (same `candId`); dedup is performed
only against the ids already in the partition file, so an in-batch
duplicate is appended twice (`C1_counterexample`), while across calls
re-appending known records is dropped. -/
theorem C1_no_duplicate_ids (existing : List Dict)
    (batches : List (String × String × List Candidate))
    (h0 : RowsIdOk existing) (h1 : (jobIdsOf existing).Nodup)
    (hb : ∀ b ∈ batches, (b.2.2.map candId).Nodup) :
    (jobIdsOf (appendMany existing batches)).Nodup ∧
    (jobIdsOf (appendMany existing batches)).dedup.length =
      (appendMany existing batches).length := by
  have main := appendMany_inv batches existing h0 h1 hb
  refine ⟨main.2, ?_⟩
  rw [List.dedup_eq_self.mpr main.2]
  exact List.length_map _ _

/-! ## Helper lemmas: URL parsing on well-formed links -/

theorem alpha_ne_colon {c : Char} (h : isAsciiAlpha c = true) : c ≠ ':' := by
  intro he
  subst he
  exact absurd h (by decide)

theorem alpha_gt32 {c : Char} (h : isAsciiAlpha c = true) : 32 < c.toNat := by
  have hr : (65 ≤ c.toNat ∧ c.toNat ≤ 90) ∨ (97 ≤ c.toNat ∧ c.toNat ≤ 122) := by
    simpa [isAsciiAlpha] using h
  omega

theorem scheme_ne_colon {c : Char} (h : isSchemeChar c = true) : c ≠ ':' := by
  intro he
  subst he
  exact absurd h (by decide)

theorem scheme_gt32 {c : Char} (h : isSchemeChar c = true) : 32 < c.toNat := by
  have hr := h
  unfold isSchemeChar at hr
  simp only [Bool.or_eq_true, decide_eq_true_eq] at hr
  rcases hr with ha | hd | he | he | he
  · exact alpha_gt32 ha
  · omega
  · subst he; decide
  · subst he; decide
  · subst he; decide

theorem gt32_unsafe_false {c : Char} (h : 32 < c.toNat) :
    isUnsafeUrlChar c = false := by
  by_cases h1 : c = '\t'
  · subst h1; exact absurd h (by decide)
  by_cases h2 : c = '\x0d'
  · subst h2; exact absurd h (by decide)
  by_cases h3 : c = '\n'
  · subst h3; exact absurd h (by decide)
  simp [isUnsafeUrlChar, h1, h2, h3]

theorem gt32_c0_false {c : Char} (h : 32 < c.toNat) : isC0OrSpace c = false := by
  simp only [isC0OrSpace, decide_eq_false_iff_not]
  omega

theorem cleanUrl_id (l : List Char)
    (hhead : l = [] ∨ ∃ c l', l = c :: l' ∧ 32 < c.toNat)
    (hsafe : ∀ a ∈ l, isUnsafeUrlChar a = false) : cleanUrl l = l := by
  unfold cleanUrl
  have hd : l.dropWhile isC0OrSpace = l := by
    rcases hhead with rfl | ⟨c, l', rfl, hc⟩
    · rfl
    · rw [List.dropWhile_cons, if_neg (by simp [gt32_c0_false hc])]
  rw [hd]
  apply List.filter_eq_self.mpr
  intro a ha
  simp [hsafe a ha]

theorem splitScheme_wf (c : Char) (cs rest : List Char)
    (hc : isAsciiAlpha c = true) (hcs : cs.all isSchemeChar = true) :
    splitScheme ((c :: cs) ++ ':' :: rest) = ((c :: cs).map lowerChar, rest) := by
  have hall : ∀ a ∈ c :: cs, (decide ¬ a = ':') = true := by
    intro a ha
    rcases List.mem_cons.mp ha with rfl | ha'
    · simp [alpha_ne_colon hc]
    · simp [scheme_ne_colon (List.all_eq_true.mp hcs a ha')]
  have htake : ((c :: cs) ++ ':' :: rest).takeWhile (· ≠ ':') = c :: cs := by
    rw [takeWhile_append_all _ hall, List.takeWhile_cons]
    simp
  have hdrop : ((c :: cs) ++ ':' :: rest).dropWhile (· ≠ ':') = ':' :: rest := by
    rw [dropWhile_append_all _ hall, List.dropWhile_cons]
    simp
  unfold splitScheme
  simp only [htake, hdrop]
  rw [if_pos ⟨hc, hcs⟩]

theorem splitNetloc_wf (h rest2 : List Char)
    (hh : ∀ a ∈ h, isNetlocEnd a = false)
    (hrest : rest2 = [] ∨ ∃ r rs, rest2 = r :: rs ∧ isNetlocEnd r = true) :
    splitNetloc ('/' :: '/' :: (h ++ rest2)) = (h, rest2) := by
  have hall : ∀ a ∈ h, (decide ¬ isNetlocEnd a = true) = true := by
    intro a ha
    simp [hh a ha]
  have htake : (h ++ rest2).takeWhile (fun c => ¬ isNetlocEnd c) = h := by
    rw [takeWhile_append_all _ hall]
    rcases hrest with rfl | ⟨r, rs, rfl, hr⟩
    · simp
    · rw [List.takeWhile_cons, if_neg (by simp [hr])]
      simp
  have hdrop : (h ++ rest2).dropWhile (fun c => ¬ isNetlocEnd c) = rest2 := by
    rw [dropWhile_append_all _ hall]
    rcases hrest with rfl | ⟨r, rs, rfl, hr⟩
    · simp
    · rw [List.dropWhile_cons, if_neg (by simp [hr])]
  unfold splitNetloc
  simp only [htake, hdrop]

theorem stripParams_id (l : List Char) (h : ∀ a ∈ l, a ≠ ';') :
    stripParams l = l := by
  unfold stripParams
  by_cases hs : '/' ∈ l
  · rw [if_pos hs]
    show (List.dropWhile (fun x => decide (x ≠ '/')) l.reverse).reverse ++
        List.takeWhile (fun x => decide (x ≠ ';'))
          (List.takeWhile (fun x => decide (x ≠ '/')) l.reverse).reverse = l
    have hseg : ∀ a ∈ (List.takeWhile (fun x => decide (x ≠ '/')) l.reverse).reverse,
        (decide (a ≠ ';')) = true := by
      intro a ha
      have : a ∈ l := by
        rw [List.mem_reverse] at ha
        have h2 : a ∈ l.reverse := List.Sublist.subset (List.takeWhile_sublist _) ha
        rwa [List.mem_reverse] at h2
      simp [h a this]
    rw [takeWhile_all hseg, ← List.reverse_append,
      List.takeWhile_append_dropWhile, List.reverse_reverse]
  · rw [if_neg hs]
    apply takeWhile_all
    intro a ha
    simp [h a ha]

theorem pyUrlparse_wf (link : String) (c : Char) (cs h p suffix : List Char)
    (hdata : link.data = c :: (cs ++ ':' :: '/' :: '/' :: ((h ++ p) ++ suffix)))
    (hc : isAsciiAlpha c = true)
    (hcs : cs.all isSchemeChar = true)
    (hh : ∀ x ∈ h, isNetlocEnd x = false ∧ x ≠ '[' ∧ x ≠ ']' ∧ 32 < x.toNat)
    (hp32 : ∀ x ∈ p, 32 < x.toNat)
    (hsufok : ∀ x ∈ suffix, isUnsafeUrlChar x = false)
    (hps : p = [] ∨ ∃ p', p = '/' :: p')
    (hsufshape : suffix = [] ∨ (∃ q, suffix = '?' :: q) ∨
      (∃ f, suffix = '#' :: f) ∨ suffix = ['/']) :
    pyUrlparse link = .ok ⟨String.mk ((c :: cs).map lowerChar), String.mk h,
      String.mk (stripParams (stripQuery (stripFragment (p ++ suffix))))⟩ := by
  have hclean : cleanUrl link.data = link.data := by
    rw [hdata]
    apply cleanUrl_id
    · right
      exact ⟨c, _, rfl, alpha_gt32 hc⟩
    · intro a ha
      simp only [List.mem_cons, List.mem_append] at ha
      rcases ha with rfl | ha | rfl | rfl | rfl | (ha | ha) | ha
      · exact gt32_unsafe_false (alpha_gt32 hc)
      · exact gt32_unsafe_false (scheme_gt32 (List.all_eq_true.mp hcs a ha))
      · decide
      · decide
      · decide
      · exact gt32_unsafe_false (hh a ha).2.2.2
      · exact gt32_unsafe_false (hp32 a ha)
      · exact hsufok a ha
  have hscheme : splitScheme (cleanUrl link.data) =
      ((c :: cs).map lowerChar, '/' :: '/' :: (h ++ (p ++ suffix))) := by
    rw [hclean, hdata]
    have hw := splitScheme_wf c cs ('/' :: '/' :: ((h ++ p) ++ suffix)) hc hcs
    simp only [List.cons_append, List.append_assoc] at hw ⊢
    exact hw
  have hnet : splitNetloc ('/' :: '/' :: (h ++ (p ++ suffix))) =
      (h, p ++ suffix) := by
    apply splitNetloc_wf
    · intro a ha
      exact (hh a ha).1
    · rcases hps with rfl | ⟨p', rfl⟩
      · simp only [List.nil_append]
        rcases hsufshape with rfl | ⟨q, rfl⟩ | ⟨f, rfl⟩ | rfl
        · left; rfl
        · right; exact ⟨'?', q, rfl, by decide⟩
        · right; exact ⟨'#', f, rfl, by decide⟩
        · right; exact ⟨'/', [], rfl, by decide⟩
      · right
        exact ⟨'/', p' ++ suffix, by simp, by decide⟩
  have hbr : ¬ (('[' ∈ h ∧ ¬ ']' ∈ h) ∨ (']' ∈ h ∧ ¬ '[' ∈ h)) := by
    rintro (⟨hin, -⟩ | ⟨hin, -⟩)
    · exact (hh _ hin).2.1 rfl
    · exact (hh _ hin).2.2.1 rfl
  simp only [pyUrlparse, hscheme, hnet]
  rw [if_neg hbr]

theorem strip_chain_eq (p suffix : List Char)
    (hpq : ∀ x ∈ p, x ≠ '?' ∧ x ≠ '#' ∧ x ≠ ';')
    (hs : suffix = [] ∨ (∃ q, suffix = '?' :: q) ∨ (∃ f, suffix = '#' :: f) ∨
      suffix = ['/']) :
    stripParams (stripQuery (stripFragment (p ++ suffix))) = p ∨
    stripParams (stripQuery (stripFragment (p ++ suffix))) = p ++ ['/'] := by
  have hpf : ∀ a ∈ p, (decide (a ≠ '#')) = true := fun a ha => by
    simp [(hpq a ha).2.1]
  have hpq' : ∀ a ∈ p, (decide (a ≠ '?')) = true := fun a ha => by
    simp [(hpq a ha).1]
  rcases hs with rfl | ⟨q, rfl⟩ | ⟨f, rfl⟩ | rfl
  · left
    rw [List.append_nil]
    unfold stripFragment stripQuery
    rw [takeWhile_all hpf, takeWhile_all hpq']
    exact stripParams_id p (fun a ha => (hpq a ha).2.2)
  · left
    unfold stripFragment stripQuery
    rw [takeWhile_append_all _ hpf, List.takeWhile_cons, if_pos (by decide),
      takeWhile_append_all _ hpq', List.takeWhile_cons, if_neg (by decide),
      List.append_nil]
    exact stripParams_id p (fun a ha => (hpq a ha).2.2)
  · left
    unfold stripFragment stripQuery
    rw [takeWhile_append_all _ hpf, List.takeWhile_cons, if_neg (by decide),
      List.append_nil, takeWhile_all hpq']
    exact stripParams_id p (fun a ha => (hpq a ha).2.2)
  · right
    unfold stripFragment stripQuery
    have hpf2 : ∀ a ∈ p ++ ['/'], (decide (a ≠ '#')) = true := by
      intro a ha
      rcases List.mem_append.mp ha with h1 | h1
      · exact hpf a h1
      · simp only [List.mem_singleton] at h1
        subst h1
        decide
    have hpq2 : ∀ a ∈ p ++ ['/'], (decide (a ≠ '?')) = true := by
      intro a ha
      rcases List.mem_append.mp ha with h1 | h1
      · exact hpq' a h1
      · simp only [List.mem_singleton] at h1
        subst h1
        decide
    rw [takeWhile_all hpf2, takeWhile_all hpq2]
    apply stripParams_id
    intro a ha
    rcases List.mem_append.mp ha with h1 | h1
    · exact (hpq a h1).2.2
    · simp only [List.mem_singleton] at h1
      subst h1
      decide

theorem string_mk_append (a b : List Char) :
    String.mk a ++ String.mk b = String.mk (a ++ b) := rfl

theorem normalize_link_wf (link : String) (c : Char) (cs h p suffix : List Char)
    (hdata : link.data = c :: (cs ++ ':' :: '/' :: '/' :: ((h ++ p) ++ suffix)))
    (hc : isAsciiAlpha c = true)
    (hcs : cs.all isSchemeChar = true)
    (hh : ∀ x ∈ h, isNetlocEnd x = false ∧ x ≠ '[' ∧ x ≠ ']' ∧ 32 < x.toNat)
    (hp : ∀ x ∈ p, x ≠ '?' ∧ x ≠ '#' ∧ x ≠ ';' ∧ 32 < x.toNat)
    (hsufok : ∀ x ∈ suffix, isUnsafeUrlChar x = false)
    (hps : p = [] ∨ ∃ p', p = '/' :: p')
    (hsufshape : suffix = [] ∨ (∃ q, suffix = '?' :: q) ∨
      (∃ f, suffix = '#' :: f) ∨ suffix = ['/']) :
    normalize_link link = rstripSlash
      (String.mk (((c :: cs).map lowerChar) ++ ':' :: '/' :: '/' :: (h ++ p))) := by
  have hparse := pyUrlparse_wf link c cs h p suffix hdata hc hcs hh
    (fun x hx => (hp x hx).2.2.2) hsufok hps hsufshape
  unfold normalize_link
  rw [hparse]
  show rstripSlash (String.mk ((c :: cs).map lowerChar) ++ "://" ++ String.mk h ++
      String.mk (stripParams (stripQuery (stripFragment (p ++ suffix))))) = _
  rw [show ("://" : String) = String.mk [':', '/', '/'] from rfl,
    string_mk_append, string_mk_append, string_mk_append]
  rcases strip_chain_eq p suffix (fun x hx =>
      ⟨(hp x hx).1, (hp x hx).2.1, (hp x hx).2.2.1⟩) hsufshape with he | he
  · rw [he]
    simp [List.append_assoc]
  · rw [he]
    unfold rstripSlash
    rw [show ((c :: cs).map lowerChar ++ [':', '/', '/'] ++ h ++ (p ++ ['/'])) =
      ((c :: cs).map lowerChar ++ [':', '/', '/'] ++ h ++ p) ++ ['/'] from by
        simp [List.append_assoc]]
    rw [dropTrailing_snoc (by decide)]
    simp [List.append_assoc]

set_option maxRecDepth 100000 in
/-- C6 counterexample: the claimed invariance under appending a
trailing slash fails on a parseable link whose last path segment
contains `;`.  `urlparse` splits `;parameters` off the last path
segment, so `http://x.com/a;b` normalizes to `http://x.com/a`, while
with a trailing slash appended the last segment is empty and nothing
is split: `http://x.com/a;b/` normalizes to `http://x.com/a;b` — the
two hash bases differ and the resolver returns different
identifiers. -/
theorem C6_counterexample :
    normalize_link "http://x.com/a;b" = "http://x.com/a" ∧
    normalize_link "http://x.com/a;b/" = "http://x.com/a;b" ∧
    job_id "t" "c" "l" "http://x.com/a;b" =
      "c9ea0a0b29d0544049a8c82512eda3c8f6911edc" ∧
    job_id "t" "c" "l" "http://x.com/a;b/" =
      "92acf973f665df5fa3883776b8699f85130d3ae4" ∧
    job_id "t" "c" "l" "http://x.com/a;b" ≠
      job_id "t" "c" "l" "http://x.com/a;b/" := by
  refine ⟨by decide, by decide, by decide, by decide, by decide⟩

/-- C6 (amended): the identifier is invariant under changing the
letter case of title, company and location (equal `pyLower` images)
and under appending a query string, a fragment, or a trailing slash to
a parseable link *whose path is free of `;`* (no `;parameters` in any
segment — `C6_counterexample` shows the trailing-slash part fails
otherwise): both links share the same scheme `c :: cs`, host `h` and
path `p`, each followed by one of the four admissible suffixes
(nothing, `?query`, `#fragment`, or `/`). -/
theorem C6_resolver_insensitive
    (t₁ t₂ comp₁ comp₂ loc₁ loc₂ link₁ link₂ : String)
    (c : Char) (cs h p suffix₁ suffix₂ : List Char)
    (ht : pyLower t₁ = pyLower t₂)
    (hcomp : pyLower comp₁ = pyLower comp₂)
    (hloc : pyLower loc₁ = pyLower loc₂)
    (hd1 : link₁.data = c :: (cs ++ ':' :: '/' :: '/' :: ((h ++ p) ++ suffix₁)))
    (hd2 : link₂.data = c :: (cs ++ ':' :: '/' :: '/' :: ((h ++ p) ++ suffix₂)))
    (hc : isAsciiAlpha c = true)
    (hcs : cs.all isSchemeChar = true)
    (hh : ∀ x ∈ h, isNetlocEnd x = false ∧ x ≠ '[' ∧ x ≠ ']' ∧ 32 < x.toNat)
    (hp : ∀ x ∈ p, x ≠ '?' ∧ x ≠ '#' ∧ x ≠ ';' ∧ 32 < x.toNat)
    (hps : p = [] ∨ ∃ p', p = '/' :: p')
    (hsuf1ok : ∀ x ∈ suffix₁, isUnsafeUrlChar x = false)
    (hsuf2ok : ∀ x ∈ suffix₂, isUnsafeUrlChar x = false)
    (hs1 : suffix₁ = [] ∨ (∃ q, suffix₁ = '?' :: q) ∨
      (∃ f, suffix₁ = '#' :: f) ∨ suffix₁ = ['/'])
    (hs2 : suffix₂ = [] ∨ (∃ q, suffix₂ = '?' :: q) ∨
      (∃ f, suffix₂ = '#' :: f) ∨ suffix₂ = ['/']) :
    job_id t₁ comp₁ loc₁ link₁ = job_id t₂ comp₂ loc₂ link₂ := by
  have hn1 := normalize_link_wf link₁ c cs h p suffix₁ hd1 hc hcs hh hp
    hsuf1ok hps hs1
  have hn2 := normalize_link_wf link₂ c cs h p suffix₂ hd2 hc hcs hh hp
    hsuf2ok hps hs2
  simp only [job_id, ht, hcomp, hloc, hn1, hn2]

/-! ## Witnesses: each hypothesis-bearing claim theorem applied at a
concrete input -/

theorem C8_witness :
    runUpdate exStore "2025-01-02"
        ⟨some (.s "zz"), [], some "2025-01-01", none, []⟩ .ok =
      (.err ("job_id not found: " ++ pyStr (.s "zz")), exStore) :=
  C8_record_not_found exStore "2025-01-02"
    ⟨some (.s "zz"), [], some "2025-01-01", none, []⟩ .ok (.s "zz")
    "2025-01-01" [exRow] rfl (by decide) (by decide) (by decide)
    (by decide) (by decide)

theorem C10_witness :
    runUpdate (⟨[("2025-01-01", [])]⟩ : Store) "2025-01-02"
        ⟨some (.s "j1"), [], some "2025-01-01", none, []⟩ .ok =
      (.err ("No rows in CSV: " ++ csv_for_date "2025-01-01"),
       (⟨[("2025-01-01", [])]⟩ : Store)) ∧
    ∀ j : String,
      ("No rows in CSV: " ++ csv_for_date "2025-01-01") ≠
        ("job_id not found: " ++ j) :=
  C10_empty_partition (⟨[("2025-01-01", [])]⟩ : Store) "2025-01-02"
    ⟨some (.s "j1"), [], some "2025-01-01", none, []⟩ .ok (.s "j1")
    "2025-01-01" rfl (by decide) (by decide) (by decide)

theorem C9_witness :
    runUpdate exStore "2025-01-02"
        ⟨some (.s "j1"), [("ats_score", .i 86)], some "2025-01-01",
         some "Mark As Done", []⟩ .ok =
      runUpdate exStore "2025-01-02"
        ⟨some (.s "j1"), [("ats_score", .i 86)], some "2025-01-01",
         none, []⟩ .ok :=
  C9_unknown_action exStore "2025-01-02"
    ⟨some (.s "j1"), [("ats_score", .i 86)], some "2025-01-01",
     some "Mark As Done", []⟩ .ok "Mark As Done" rfl (by decide)

theorem C2_witness :
    (write_all_atomic ⟨[exRow], none⟩ [exRow] (.failReplace "boom")).1 =
      some "boom" ∧
    (write_all_atomic ⟨[exRow], none⟩ [exRow] (.failReplace "boom")).2.main =
      [exRow] ∧
    (write_all_atomic ⟨[exRow], none⟩ [exRow] .ok).2 =
      ⟨[exRow].map writeRow, none⟩ ∧
    runUpdate exStore "2025-01-02" exPayloadC3 (.failReplace "boom") =
      (.err ("Failed to write CSV: " ++ "boom"), exStore) :=
  C2_atomic_write exStore "2025-01-02" exPayloadC3 ⟨[exRow], none⟩ [exRow]
    0 "boom" (.failReplace "boom") (Or.inr rfl) "jobs_2025-01-01.csv"
    [("raw_description", PyVal.s "CHANGED")]
    (fillDefaults (dictUpdate exRow [("raw_description", PyVal.s "CHANGED")]))
    (exStore.set "2025-01-01"
      ((updateRows [exRow] (.s "j1")
        [("raw_description", PyVal.s "CHANGED")]).map writeRow))
    (by decide)

theorem C3_witness :
    ((updateRows [exRow] (.s "j1")
        [("raw_description", PyVal.s "CHANGED")]).map writeRow)[0]?.bind
      (fun r => dget r "title") = some (.s "T") :=
  C3_protected_fields exStore "2025-01-02" exPayloadC3 .ok
    (.ok "jobs_2025-01-01.csv" [("raw_description", PyVal.s "CHANGED")]
      (fillDefaults (dictUpdate exRow [("raw_description", PyVal.s "CHANGED")])))
    (exStore.set "2025-01-01"
      ((updateRows [exRow] (.s "j1")
        [("raw_description", PyVal.s "CHANGED")]).map writeRow))
    (by decide) "title" (by decide) "2025-01-01" [exRow]
    ((updateRows [exRow] (.s "j1")
        [("raw_description", PyVal.s "CHANGED")]).map writeRow)
    (by decide) (by decide) 0 "T" (by decide)

theorem C4_witness :
    dget [("date_applied", PyVal.s "2025-08-13"),
          ("application_submitted", PyVal.s "yes")] "date_applied" =
      some (.s "2025-08-13") ∧
    dget (fillDefaults (dictUpdate exRow
        [("date_applied", PyVal.s "2025-08-13"),
         ("application_submitted", PyVal.s "yes")])) "date_applied" =
      some (.s "2025-08-13") :=
  C4_explicit_date_wins exStore "2025-01-02"
    ⟨some (.s "j1"), [("date_applied", .s "2025-08-13")], some "2025-01-01",
     some "submit_application", []⟩ .ok "2025-08-13" rfl (by decide)
    (by decide) (by decide) (by decide) (by simp [NodupKeys]) "jobs_2025-01-01.csv"
    [("date_applied", PyVal.s "2025-08-13"),
     ("application_submitted", PyVal.s "yes")]
    (fillDefaults (dictUpdate exRow
      [("date_applied", PyVal.s "2025-08-13"),
       ("application_submitted", PyVal.s "yes")]))
    (exStore.set "2025-01-01"
      ((updateRows [exRow] (.s "j1")
        [("date_applied", PyVal.s "2025-08-13"),
         ("application_submitted", PyVal.s "yes")]).map writeRow))
    (by decide)

theorem C7_witness :
    (dget (sanitizePass (expandUpdates
        ⟨some (.s "j1"), [("application_submitted", .b true)],
         some "2025-01-01", none, []⟩)) "application_submitted" =
        some (.s "yes") →
      dateMissing (sanitizePass (expandUpdates
        ⟨some (.s "j1"), [("application_submitted", .b true)],
         some "2025-01-01", none, []⟩)) = true →
      dget (fillDefaults (dictUpdate exRow
        [("application_submitted", PyVal.s "yes"),
         ("date_applied", PyVal.s "2025-01-02")])) "date_applied" =
        some (.s "2025-01-02")) ∧
    (∀ v, dget (sanitizePass (expandUpdates
        ⟨some (.s "j1"), [("application_submitted", .b true)],
         some "2025-01-01", none, []⟩)) "date_applied" = some v →
      pyTruthy v = true →
      dget (fillDefaults (dictUpdate exRow
        [("application_submitted", PyVal.s "yes"),
         ("date_applied", PyVal.s "2025-01-02")])) "date_applied" = some v) :=
  C7_submit_stamps_date exStore "2025-01-02"
    ⟨some (.s "j1"), [("application_submitted", .b true)],
     some "2025-01-01", none, []⟩ .ok "jobs_2025-01-01.csv"
    [("application_submitted", PyVal.s "yes"),
     ("date_applied", PyVal.s "2025-01-02")]
    (fillDefaults (dictUpdate exRow
      [("application_submitted", PyVal.s "yes"),
       ("date_applied", PyVal.s "2025-01-02")]))
    (exStore.set "2025-01-01"
      ((updateRows [exRow] (.s "j1")
        [("application_submitted", PyVal.s "yes"),
         ("date_applied", PyVal.s "2025-01-02")]).map writeRow))
    (by decide)

theorem C1_witness :
    (jobIdsOf (appendMany []
        [("2025-01-01", "kw", [exCand]), ("2025-01-02", "kw", [exCand])])).Nodup ∧
    (jobIdsOf (appendMany []
        [("2025-01-01", "kw", [exCand]),
         ("2025-01-02", "kw", [exCand])])).dedup.length =
      (appendMany []
        [("2025-01-01", "kw", [exCand]), ("2025-01-02", "kw", [exCand])]).length :=
  C1_no_duplicate_ids []
    [("2025-01-01", "kw", [exCand]), ("2025-01-02", "kw", [exCand])]
    (by intro r hr; cases hr) (by simp [jobIdsOf])
    (by intro b hb; fin_cases hb <;> simp)

theorem C6_witness :
    job_id "Data Scientist" "Acme" "Toronto" "https://x.com/job/1?utm=x" =
      job_id "data scientist" "ACME" "TORONTO" "https://x.com/job/1" :=
  C6_resolver_insensitive "Data Scientist" "data scientist" "Acme" "ACME"
    "Toronto" "TORONTO" "https://x.com/job/1?utm=x" "https://x.com/job/1"
    'h' "ttps".data "x.com".data "/job/1".data "?utm=x".data []
    (by decide) (by decide) (by decide) (by decide) (by decide) (by decide)
    (by decide) (by decide) (by decide)
    (Or.inr ⟨"job/1".data, by decide⟩) (by decide) (by decide)
    (Or.inr (Or.inl ⟨"utm=x".data, by decide⟩)) (Or.inl (by decide))

end JobAgent
